import Mathlib

/-!
Verification of the serde_bin repository's binary codec (`src/transform`).

The development shallowly embeds the serializer (`src/transform/src/ser.rs`),
the deserializer (`src/transform/src/de.rs`), the error model
(`src/transform/src/error.rs`) and the `load` helper (`src/transform/src/lib.rs`).

Machine integers are modelled as `Nat` with explicit `% 2 ^ w` where the Rust
code relies on the fixed width (`u8`, `u32` casts, wrapping `usize` arithmetic).
Values are modelled by an explicit `Value` tree and the serde shape-traversal
protocol (the data-driven dispatch of `Serialize` / `Deserialize` impls) by an
explicit `Shape` tree; the behaviour of the serde-derived visitors (fixed-arity
tuple/struct visitors, draining `Vec`/map visitors, the enum variant-index
check) is not under `src/` and is modelled following the spec, as noted at the
relevant definitions.
-/

namespace SerdeBin

/-- Error model from `src/transform/src/error.rs`: `Custom(String)` carries
malformed-data messages, `Unimplemented` is the unsupported-type error,
`InvalidData` is the variant-index-overflow error. -/
inductive Error where
  | Custom (msg : String)
  | Unimplemented
  | InvalidData
deriving DecidableEq

mutual
/-- Values of the supported (and, for rejection claims, some unsupported)
serde shapes. Scalars carry `Nat` payloads; the legal ranges are imposed by
the well-formedness predicates, with `% 256` / `% 2 ^ 32` at the byte-writing
points mirroring the Rust types. Unsupported scalar kinds (`vi32`, `vu64`,
`vf64`, `vchar`, `vstr`, `vbytes`) stand for the closed-set rejections. -/
inductive Value where
  | vbool (b : Bool)
  | vu8 (n : Nat)
  | vu32 (n : Nat)
  | vi32 (n : Int)
  | vu64 (n : Nat)
  | vf64 (bits : Nat)
  | vchar (c : Nat)
  | vstr (s : List Nat)
  | vbytes (bs : List Nat)
  | vnone
  | vsome (v : Value)
  | vunit
  | vunitStruct
  | vnewtypeStruct (v : Value)
  | vseq (vs : ValueList)
  | vtuple (vs : ValueList)
  | vtupleStruct (vs : ValueList)
  | vstruct (vs : ValueList)
  | vmap (es : EntryList)
  | vunitVariant (idx : Nat)
  | vnewtypeVariant (idx : Nat) (v : Value)
  | vtupleVariant (idx : Nat) (vs : ValueList)
  | vstructVariant (idx : Nat) (vs : ValueList)

inductive ValueList where
  | nil
  | cons (v : Value) (vs : ValueList)

inductive EntryList where
  | nil
  | cons (k : Value) (v : Value) (es : EntryList)
end

deriving instance DecidableEq for Value, ValueList, EntryList

mutual
/-- Shapes requested from the decoder: the structural category a serde
`Deserialize` impl announces. Mirrors the `Deserializer` method set of
`src/transform/src/de.rs`. -/
inductive Shape where
  | sbool
  | su8
  | su32
  | si32
  | su64
  | sf64
  | schar
  | sstr
  | sbytes
  | sany
  | signoredAny
  | soption (t : Shape)
  | sunit
  | sunitStruct
  | snewtypeStruct (t : Shape)
  | sseq (t : Shape)
  | stuple (ts : ShapeList)
  | stupleStruct (ts : ShapeList)
  | sstruct (ts : ShapeList)
  | smap (tk : Shape) (tv : Shape)
  | senum (vars : VariantList)

inductive ShapeList where
  | nil
  | cons (t : Shape) (ts : ShapeList)

inductive VariantShape where
  | wunit
  | wnewtype (t : Shape)
  | wtuple (ts : ShapeList)
  | wstruct (ts : ShapeList)

inductive VariantList where
  | nil
  | cons (w : VariantShape) (ws : VariantList)
end

deriving instance DecidableEq for Shape, ShapeList, VariantShape, VariantList

/-- Little-endian bytes of a 32-bit value, as `u32::to_le_bytes` produces for
an argument already reduced below `2 ^ 32`. -/
def u32_le (n : Nat) : List Nat :=
  [n % 256, n / 256 % 256, n / 2 ^ 16 % 256, n / 2 ^ 24 % 256]

/-- State of a `BytesSerializer` (`ser.rs` lines 5-8): the output buffer and
the stack of pending length-prefix offsets, both behind `RefCell` in Rust and
threaded explicitly here. -/
structure SerState where
  buffer : List Nat
  offsets : List Nat
deriving DecidableEq

/-- `BytesSerializer::start_bytelen_encoding` (`ser.rs` lines 23-29): push the
current buffer length on the offsets stack and reserve 4 placeholder bytes. -/
def start_bytelen_encoding (st : SerState) : SerState :=
  ⟨st.buffer ++ u32_le 0, st.buffer.length :: st.offsets⟩

/-- `BytesSerializer::end_bytelen_encoding` (`ser.rs` lines 31-41): pop the
last offset (`unwrap_or_default` gives 0 on an empty stack), compute
`(buffer_len - offset - 4) as u32` and overwrite the 4 placeholder bytes at
that offset. Subtraction is `Nat` truncated subtraction; on every reachable
call the buffer extends past `offset + 4`, matching the Rust `usize` math. -/
def end_bytelen_encoding (st : SerState) : SerState :=
  let offset := st.offsets.headD 0
  let len := (st.buffer.length - offset - 4) % 2 ^ 32
  ⟨st.buffer.take offset ++ u32_le len ++ st.buffer.drop (offset + 4), st.offsets.tail⟩

mutual
/-- The `Serializer` impl of `ser.rs` (lines 49-387), dispatched on the value's
shape as serde's `Serialize` does. Returns the updated state (the `RefCell`
contents as left by the call, including on failure) and `none` for `Ok(())` or
`some e` for `Err(e)`. Supported scalars append raw bytes; unsupported scalars
return `Unimplemented` untouched; containers reserve/backpatch a length; the
variant kinds check `variant_index <= u8::MAX` after `start_bytelen_encoding`.
`serialize_newtype_variant` (lines 176-195) never calls `end_bytelen_encoding`,
exactly as in the source. -/
def serialize : Value → SerState → SerState × Option Error
  | .vbool b, st => (⟨st.buffer ++ [if b then 1 else 0], st.offsets⟩, none)
  | .vu8 n, st => (⟨st.buffer ++ [n % 256], st.offsets⟩, none)
  | .vu32 n, st => (⟨st.buffer ++ u32_le (n % 2 ^ 32), st.offsets⟩, none)
  | .vi32 _, st => (st, some .Unimplemented)
  | .vu64 _, st => (st, some .Unimplemented)
  | .vf64 _, st => (st, some .Unimplemented)
  | .vchar _, st => (st, some .Unimplemented)
  | .vstr _, st => (st, some .Unimplemented)
  | .vbytes _, st => (st, some .Unimplemented)
  | .vnone, st => (⟨st.buffer ++ [0], st.offsets⟩, none)
  | .vsome v, st => serialize v ⟨st.buffer ++ [1], st.offsets⟩
  | .vunit, st => (⟨st.buffer ++ [0], st.offsets⟩, none)
  | .vunitStruct, st => (⟨st.buffer ++ [0], st.offsets⟩, none)
  | .vnewtypeStruct v, st => serialize v st
  | .vseq vs, st =>
    match serializeElems vs (start_bytelen_encoding st) with
    | (st', none) => (end_bytelen_encoding st', none)
    | (st', some e) => (st', some e)
  | .vtuple vs, st =>
    match serializeElems vs (start_bytelen_encoding st) with
    | (st', none) => (end_bytelen_encoding st', none)
    | (st', some e) => (st', some e)
  | .vtupleStruct vs, st =>
    match serializeElems vs (start_bytelen_encoding st) with
    | (st', none) => (end_bytelen_encoding st', none)
    | (st', some e) => (st', some e)
  | .vstruct vs, st =>
    match serializeElems vs (start_bytelen_encoding st) with
    | (st', none) => (end_bytelen_encoding st', none)
    | (st', some e) => (st', some e)
  | .vmap es, st =>
    match serializeEntries es (start_bytelen_encoding st) with
    | (st', none) => (end_bytelen_encoding st', none)
    | (st', some e) => (st', some e)
  | .vunitVariant i, st =>
    let st1 := start_bytelen_encoding st
    if i ≤ 255 then
      (end_bytelen_encoding ⟨st1.buffer ++ [i % 256], st1.offsets⟩, none)
    else (st1, some .InvalidData)
  | .vnewtypeVariant i v, st =>
    let st1 := start_bytelen_encoding st
    if i ≤ 255 then serialize v ⟨st1.buffer ++ [i % 256], st1.offsets⟩
    else (st1, some .InvalidData)
  | .vtupleVariant i vs, st =>
    let st1 := start_bytelen_encoding st
    if i ≤ 255 then
      match serializeElems vs ⟨st1.buffer ++ [i % 256], st1.offsets⟩ with
      | (st', none) => (end_bytelen_encoding st', none)
      | (st', some e) => (st', some e)
    else (st1, some .InvalidData)
  | .vstructVariant i vs, st =>
    let st1 := start_bytelen_encoding st
    if i ≤ 255 then
      match serializeElems vs ⟨st1.buffer ++ [i % 256], st1.offsets⟩ with
      | (st', none) => (end_bytelen_encoding st', none)
      | (st', some e) => (st', some e)
    else (st1, some .InvalidData)

/-- Serialize the elements of a sequence/tuple/struct in order, propagating the
first failure with its state (the derived `Serialize` impls call
`serialize_element`/`serialize_field` and stop at the first `Err`). -/
def serializeElems : ValueList → SerState → SerState × Option Error
  | .nil, st => (st, none)
  | .cons v vs, st =>
    match serialize v st with
    | (st', none) => serializeElems vs st'
    | (st', some e) => (st', some e)

/-- Serialize map entries in order, key then value (`SerializeMap` impl,
`ser.rs` lines 334-355). -/
def serializeEntries : EntryList → SerState → SerState × Option Error
  | .nil, st => (st, none)
  | .cons k v es, st =>
    match serialize k st with
    | (st', none) =>
      match serialize v st' with
      | (st'', none) => serializeEntries es st''
      | (st'', some e) => (st'', some e)
    | (st', some e) => (st', some e)
end

/-- Free function `to_bytes` (`ser.rs` lines 44-47): run the value against a
fresh serializer; on success the buffer is taken, on failure the error is
returned and the (dirty) instance is dropped. -/
def to_bytes (v : Value) : Except Error (List Nat) :=
  match serialize v ⟨[], []⟩ with
  | (st, none) => .ok st.buffer
  | (_, some e) => .error e

/-- Method `BytesSerializer::to_bytes` (`ser.rs` lines 18-21) on a possibly
reused instance: `value.serialize(self)?` then `self.buffer.take()`. On `Err`
the early return skips the `take`, leaving the partially written buffer and
offsets in place. -/
def ser_to_bytes (st : SerState) (v : Value) : Except Error (List Nat) × SerState :=
  match serialize v st with
  | (st', none) => (.ok st'.buffer, ⟨[], st'.offsets⟩)
  | (st', some e) => (.error e, st')

/-- `BytesDeserializer::read_bytes` (`de.rs` lines 29-39): fail with the
truncated-buffer message when `pos + len` exceeds the buffer length, otherwise
return the slice `buffer[pos..pos+len]` and the advanced cursor. On failure
the cursor is not advanced (here: no cursor is returned at all). -/
def read_bytes (buffer : List Nat) (pos len : Nat) : Except Error (List Nat × Nat) :=
  if buffer.length < pos + len then .error (.Custom ("Unexpected end of input"))
  else .ok ((buffer.drop pos).take len, pos + len)

/-- `BytesDeserializer::read_byte` (`de.rs` lines 41-44). -/
def read_byte (buffer : List Nat) (pos : Nat) : Except Error (Nat × Nat) :=
  match read_bytes buffer pos 1 with
  | .ok (bs, p) => .ok (bs.headD 0, p)
  | .error e => .error e

/-- Little-endian reassembly of 4 bytes, as `u32::from_le_bytes`. -/
def from_le4 (bs : List Nat) : Nat :=
  bs.headD 0 + 256 * (bs.tail.headD 0) + 2 ^ 16 * (bs.tail.tail.headD 0) +
    2 ^ 24 * (bs.tail.tail.tail.headD 0)

/-- `BytesDeserializer::read_u32` (`de.rs` lines 46-49). -/
def read_u32 (buffer : List Nat) (pos : Nat) : Except Error (Nat × Nat) :=
  match read_bytes buffer pos 4 with
  | .ok (bs, p) => .ok (from_le4 bs, p)
  | .error e => .error e

/-- The `usize` modulus: budget arithmetic in the decoder is 64-bit. -/
def USIZE : Nat := 2 ^ 64

/-- Wrapping `usize` subtraction, the release-build semantics of the unchecked
`self.remaining -= consumed` in `SeqAccess::next_element_seed` and the
`MapAccess` methods (`de.rs` lines 359, 472, 484); a debug build would panic
at the same underflow instead of wrapping. -/
def usize_wrap_sub (a b : Nat) : Nat :=
  (a % USIZE + (USIZE - b % USIZE)) % USIZE

/-- Budget-draining element loop: `SeqAccess::next_element_seed`
(`de.rs` lines 347-361) driven by the serde-derived `Vec` visitor, which keeps
requesting elements until the access returns `None` (budget exactly 0). The
fuel argument is a modelling device for termination only: callers pass
`buffer.length + 1`, which the loop can never exhaust because every successful
element decode consumes at least one byte. -/
def seqDrain (dec : List Nat → Nat → Except Error (Value × Nat)) :
    Nat → Nat → List Nat → Nat → Except Error (ValueList × Nat)
  | 0, _, _, _ => .error (.Custom ("out of fuel"))
  | fuel + 1, remaining, buffer, pos =>
    if remaining = 0 then .ok (.nil, pos)
    else
      match dec buffer pos with
      | .error e => .error e
      | .ok (v, pos') =>
        match seqDrain dec fuel (usize_wrap_sub remaining (pos' - pos)) buffer pos' with
        | .error e => .error e
        | .ok (vs, p) => .ok (.cons v vs, p)

/-- Budget-draining entry loop: `MapAccess::next_key_seed` /
`next_value_seed` (`de.rs` lines 460-487) driven by the serde-derived map
visitor (`next_entry` until `None`). Key and value each subtract their own
consumed delta, as in the source. Fuel as in `seqDrain`. -/
def mapDrain (decK decV : List Nat → Nat → Except Error (Value × Nat)) :
    Nat → Nat → List Nat → Nat → Except Error (EntryList × Nat)
  | 0, _, _, _ => .error (.Custom ("out of fuel"))
  | fuel + 1, remaining, buffer, pos =>
    if remaining = 0 then .ok (.nil, pos)
    else
      match decK buffer pos with
      | .error e => .error e
      | .ok (k, p1) =>
        match decV buffer p1 with
        | .error e => .error e
        | .ok (v, p2) =>
          match
            mapDrain decK decV fuel
              (usize_wrap_sub (usize_wrap_sub remaining (p1 - pos)) (p2 - p1)) buffer p2 with
          | .error e => .error e
          | .ok (es, p) => .ok (.cons k v es, p)

mutual
/-- The `Deserializer` impl of `de.rs` (lines 64-331), dispatched on the
requested shape as the target type's serde-derived `Deserialize` does.
Scalars other than u8/u32 fail with `Unimplemented` (`deserialize_bool`
included, `de.rs` lines 71-73). Containers read the 4-byte length and run the
visitor: the serde-derived visitors for `Vec`/maps drain the budget
(`seqDrain`/`mapDrain`), those for tuples and structs request exactly one
element per field (`seqFixed`); that derived-visitor behaviour is not under
`src/` and follows the spec's shape-traversal protocol. `deserialize_enum`
(lines 306-316) reads the length then the variant-index byte and dispatches. -/
def deserialize : Shape → List Nat → Nat → Except Error (Value × Nat)
  | .sbool, _, _ => .error .Unimplemented
  | .si32, _, _ => .error .Unimplemented
  | .su64, _, _ => .error .Unimplemented
  | .sf64, _, _ => .error .Unimplemented
  | .schar, _, _ => .error .Unimplemented
  | .sstr, _, _ => .error .Unimplemented
  | .sbytes, _, _ => .error .Unimplemented
  | .sany, _, _ => .error .Unimplemented
  | .signoredAny, _, _ => .error .Unimplemented
  | .su8, buffer, pos =>
    match read_byte buffer pos with
    | .ok (b, p) => .ok (.vu8 b, p)
    | .error e => .error e
  | .su32, buffer, pos =>
    match read_u32 buffer pos with
    | .ok (n, p) => .ok (.vu32 n, p)
    | .error e => .error e
  | .soption t, buffer, pos =>
    match read_byte buffer pos with
    | .error e => .error e
    | .ok (b, p) =>
      if b = 0 then .ok (.vnone, p)
      else if b = 1 then
        match deserialize t buffer p with
        | .ok (v, p') => .ok (.vsome v, p')
        | .error e => .error e
      else .error (.Custom ("Invalid Option value"))
  | .sunit, buffer, pos =>
    match read_byte buffer pos with
    | .ok (b, p) => if b = 0 then .ok (.vunit, p) else .error (.Custom ("Invalid Unit value"))
    | .error e => .error e
  | .sunitStruct, buffer, pos =>
    match read_byte buffer pos with
    | .ok (b, p) =>
      if b = 0 then .ok (.vunitStruct, p) else .error (.Custom ("Invalid Unit Struct value"))
    | .error e => .error e
  | .snewtypeStruct t, buffer, pos =>
    match deserialize t buffer pos with
    | .ok (v, p) => .ok (.vnewtypeStruct v, p)
    | .error e => .error e
  | .sseq t, buffer, pos =>
    match read_u32 buffer pos with
    | .error e => .error e
    | .ok (len, p) =>
      match seqDrain (fun b q => deserialize t b q) (buffer.length + 1) len buffer p with
      | .ok (vs, p') => .ok (.vseq vs, p')
      | .error e => .error e
  | .stuple ts, buffer, pos =>
    match read_u32 buffer pos with
    | .error e => .error e
    | .ok (len, p) =>
      match seqFixed ts len buffer p with
      | .ok (vs, p') => .ok (.vtuple vs, p')
      | .error e => .error e
  | .stupleStruct ts, buffer, pos =>
    match read_u32 buffer pos with
    | .error e => .error e
    | .ok (len, p) =>
      match seqFixed ts len buffer p with
      | .ok (vs, p') => .ok (.vtupleStruct vs, p')
      | .error e => .error e
  | .sstruct ts, buffer, pos =>
    match read_u32 buffer pos with
    | .error e => .error e
    | .ok (len, p) =>
      match seqFixed ts len buffer p with
      | .ok (vs, p') => .ok (.vstruct vs, p')
      | .error e => .error e
  | .smap tk tv, buffer, pos =>
    match read_u32 buffer pos with
    | .error e => .error e
    | .ok (len, p) =>
      match
        mapDrain (fun b q => deserialize tk b q) (fun b q => deserialize tv b q)
          (buffer.length + 1) len buffer p with
      | .ok (es, p') => .ok (.vmap es, p')
      | .error e => .error e
  | .senum vars, buffer, pos =>
    match read_u32 buffer pos with
    | .error e => .error e
    | .ok (remaining, p1) =>
      match read_byte buffer p1 with
      | .error e => .error e
      | .ok (idx, p2) => variantDispatch vars idx idx remaining buffer p2

/-- Fixed-arity element loop: `SeqAccess::next_element_seed` driven by a
serde-derived tuple/struct visitor, which requests exactly one element per
field and treats a `None` (budget 0) as an invalid-length failure. The
derived-visitor arity discipline is not under `src/` and follows the spec's
shape-traversal protocol; the budget bookkeeping is `de.rs` lines 347-361. -/
def seqFixed : ShapeList → Nat → List Nat → Nat → Except Error (ValueList × Nat)
  | .nil, _, _, pos => .ok (.nil, pos)
  | .cons t ts, remaining, buffer, pos =>
    if remaining = 0 then .error (.Custom ("invalid length"))
    else
      match deserialize t buffer pos with
      | .error e => .error e
      | .ok (v, pos') =>
        match seqFixed ts (usize_wrap_sub remaining (pos' - pos)) buffer pos' with
        | .error e => .error e
        | .ok (vs, p) => .ok (.cons v vs, p)

/-- `EnumAccess::variant_seed` plus `VariantAccess` (`de.rs` lines 380-444).
Modelled from the spec: the serde-derived variant-identifier `Deserialize`
(not under `src/`) accepts an index byte only when it denotes one of the
statically known variants and otherwise fails with a malformed-data error.
The countdown argument walks to the variant at the original index `idx`;
unit variants consume nothing further, newtype variants recurse once, and
tuple/struct variants run the fixed-arity loop against the whole remaining
budget (the 4-byte length, not reduced by the index byte), as in
`tuple_variant`/`struct_variant` (`de.rs` lines 407-443). -/
def variantDispatch : VariantList → Nat → Nat → Nat → List Nat → Nat →
    Except Error (Value × Nat)
  | .nil, _, _, _, _, _ => .error (.Custom ("invalid variant index"))
  | .cons w _, 0, idx, remaining, buffer, pos =>
    match w with
    | .wunit => .ok (.vunitVariant idx, pos)
    | .wnewtype t =>
      match deserialize t buffer pos with
      | .ok (v, p) => .ok (.vnewtypeVariant idx v, p)
      | .error e => .error e
    | .wtuple ts =>
      match seqFixed ts remaining buffer pos with
      | .ok (vs, p) => .ok (.vtupleVariant idx vs, p)
      | .error e => .error e
    | .wstruct ts =>
      match seqFixed ts remaining buffer pos with
      | .ok (vs, p) => .ok (.vstructVariant idx vs, p)
      | .error e => .error e
  | .cons _ ws, n + 1, idx, remaining, buffer, pos =>
    variantDispatch ws n idx remaining buffer pos
end

/-- Free function `from_bytes` (`de.rs` lines 56-62): decode against a fresh
`BytesDeserializer` (cursor 0); trailing bytes are ignored. -/
def from_bytes (S : Shape) (bytes : List Nat) : Except Error Value :=
  match deserialize S bytes 0 with
  | .ok (v, _) => .ok v
  | .error e => .error e

/-- State of a `BytesDeserializer` (`de.rs` lines 5-9): buffer and cursor.
The `offsets` stack of the Rust struct is written (pushed/popped around
containers) but never read, so it cannot influence any result and is left out
of the model. -/
structure DeState where
  buffer : List Nat
  position : Nat
deriving DecidableEq

/-- `BytesDeserializer::new` (`de.rs` lines 12-18). -/
def deserializer_new : DeState := ⟨[], 0⟩

/-- Method `BytesDeserializer::from_bytes` (`de.rs` lines 20-27) on a possibly
reused instance: the buffer is cleared and refilled with `bytes`, but the
cursor keeps its previous value (`position` is not reset). Returns the decoded
value and the final cursor on success. -/
def de_from_bytes (st : DeState) (S : Shape) (bytes : List Nat) :
    Except Error (Value × Nat) :=
  deserialize S bytes st.position

/-- `load` (`lib.rs` lines 9-17): encode the default value to learn its byte
length `n`, slice `&data[..n]` and decode the slice. The Rust slice panics
when `n > data.len()`; `none` models that panic, `some r` a normal return. -/
def load (S : Shape) (dflt : Value) (data : List Nat) : Option (Except Error Value) :=
  match to_bytes dflt with
  | .error e => some (.error e)
  | .ok serialized =>
    if serialized.length ≤ data.length then some (from_bytes S (data.take serialized.length))
    else none

/-- `variantLookup vars i` is the statically known variant at index `i`, when
there is one: the shape-side view of the derived enum's variant table. -/
def variantLookup : VariantList → Nat → Option VariantShape
  | .nil, _ => none
  | .cons w _, 0 => some w
  | .cons _ ws, n + 1 => variantLookup ws n

mutual
/-- Canonical byte image of a value, written compositionally: a closed-form
description of what `serialize` appends to the buffer. Container length words
are exact byte counts of the payload that follows — except the newtype
variant, whose length word stays at the unpatched placeholder 0, as the
encoder leaves it. Unsupported scalar kinds get a dummy `[0]` (they never
serialize successfully, so the entry is never relied upon). -/
def encV : Value → List Nat
  | .vbool b => [if b then 1 else 0]
  | .vu8 n => [n % 256]
  | .vu32 n => u32_le (n % 2 ^ 32)
  | .vi32 _ => [0]
  | .vu64 _ => [0]
  | .vf64 _ => [0]
  | .vchar _ => [0]
  | .vstr _ => [0]
  | .vbytes _ => [0]
  | .vnone => [0]
  | .vsome v => 1 :: encV v
  | .vunit => [0]
  | .vunitStruct => [0]
  | .vnewtypeStruct v => encV v
  | .vseq vs => u32_le ((encVL vs).length % 2 ^ 32) ++ encVL vs
  | .vtuple vs => u32_le ((encVL vs).length % 2 ^ 32) ++ encVL vs
  | .vtupleStruct vs => u32_le ((encVL vs).length % 2 ^ 32) ++ encVL vs
  | .vstruct vs => u32_le ((encVL vs).length % 2 ^ 32) ++ encVL vs
  | .vmap es => u32_le ((encVE es).length % 2 ^ 32) ++ encVE es
  | .vunitVariant i => u32_le 1 ++ [i % 256]
  | .vnewtypeVariant i v => u32_le 0 ++ i % 256 :: encV v
  | .vtupleVariant i vs => u32_le (((encVL vs).length + 1) % 2 ^ 32) ++ i % 256 :: encVL vs
  | .vstructVariant i vs => u32_le (((encVL vs).length + 1) % 2 ^ 32) ++ i % 256 :: encVL vs

/-- Concatenated canonical images of sequence/tuple/struct elements. -/
def encVL : ValueList → List Nat
  | .nil => []
  | .cons v vs => encV v ++ encVL vs

/-- Concatenated canonical images of map entries, key then value. -/
def encVE : EntryList → List Nat
  | .nil => []
  | .cons k v es => encV k ++ encV v ++ encVE es
end

mutual
/-- Well-formedness of a value strictly below a length-prefixed container.
With `strict := false` it captures exactly the values the encoder accepts
with a correctly backpatched output: supported kinds only, variant indices
at most 255, and no newtype variant anywhere (a nested newtype variant skips
its `end_bytelen_encoding` and corrupts the enclosing backpatch).
With `strict := true` it additionally demands what decoding back needs:
scalars within their type's range, no bool (its decode is unimplemented),
and every length word below `2 ^ 32`. -/
def okF : Bool → Value → Bool
  | strict, .vbool _ => !strict
  | strict, .vu8 n => !strict || decide (n < 256)
  | strict, .vu32 n => !strict || decide (n < 2 ^ 32)
  | _, .vi32 _ => false
  | _, .vu64 _ => false
  | _, .vf64 _ => false
  | _, .vchar _ => false
  | _, .vstr _ => false
  | _, .vbytes _ => false
  | _, .vnone => true
  | strict, .vsome v => okF strict v
  | _, .vunit => true
  | _, .vunitStruct => true
  | strict, .vnewtypeStruct v => okF strict v
  | strict, .vseq vs => okFL strict vs && (!strict || decide ((encVL vs).length < 2 ^ 32))
  | strict, .vtuple vs => okFL strict vs && (!strict || decide ((encVL vs).length < 2 ^ 32))
  | strict, .vtupleStruct vs =>
    okFL strict vs && (!strict || decide ((encVL vs).length < 2 ^ 32))
  | strict, .vstruct vs => okFL strict vs && (!strict || decide ((encVL vs).length < 2 ^ 32))
  | strict, .vmap es => okFE strict es && (!strict || decide ((encVE es).length < 2 ^ 32))
  | _, .vunitVariant i => decide (i ≤ 255)
  | _, .vnewtypeVariant _ _ => false
  | strict, .vtupleVariant i vs =>
    decide (i ≤ 255) && okFL strict vs && (!strict || decide ((encVL vs).length + 1 < 2 ^ 32))
  | strict, .vstructVariant i vs =>
    decide (i ≤ 255) && okFL strict vs && (!strict || decide ((encVL vs).length + 1 < 2 ^ 32))

/-- Elementwise `okF` over a value list. -/
def okFL : Bool → ValueList → Bool
  | _, .nil => true
  | strict, .cons v vs => okF strict v && okFL strict vs

/-- Entrywise `okF` over map entries. -/
def okFE : Bool → EntryList → Bool
  | _, .nil => true
  | strict, .cons k v es => okF strict k && okF strict v && okFE strict es
end

/-- Well-formedness of a top-level value: newtype variants are additionally
allowed along the outermost spine (through `Some`, newtype structs and other
newtype variants), where no enclosing backpatch exists for their missing
`end_bytelen_encoding` to corrupt. -/
def spineF (strict : Bool) : Value → Bool
  | .vsome v => spineF strict v
  | .vnewtypeStruct v => spineF strict v
  | .vnewtypeVariant i v => decide (i ≤ 255) && spineF strict v
  | v => okF strict v

mutual
/-- The value/shape typing relation: `hasShape v S` states that `v` is a
value of the shape a serde-derived `Deserialize` for `S` expects (so decoding
at `S` can reproduce `v`). Variant values must sit at their index in the
enum's variant table with the matching payload kind. -/
def hasShape : Value → Shape → Bool
  | .vbool _, S => match S with | .sbool => true | _ => false
  | .vu8 _, S => match S with | .su8 => true | _ => false
  | .vu32 _, S => match S with | .su32 => true | _ => false
  | .vi32 _, _ => false
  | .vu64 _, _ => false
  | .vf64 _, _ => false
  | .vchar _, _ => false
  | .vstr _, _ => false
  | .vbytes _, _ => false
  | .vnone, S => match S with | .soption _ => true | _ => false
  | .vsome v, S => match S with | .soption t => hasShape v t | _ => false
  | .vunit, S => match S with | .sunit => true | _ => false
  | .vunitStruct, S => match S with | .sunitStruct => true | _ => false
  | .vnewtypeStruct v, S => match S with | .snewtypeStruct t => hasShape v t | _ => false
  | .vseq vs, S => match S with | .sseq t => hasShapeSeq vs t | _ => false
  | .vtuple vs, S => match S with | .stuple ts => hasShapeL vs ts | _ => false
  | .vtupleStruct vs, S => match S with | .stupleStruct ts => hasShapeL vs ts | _ => false
  | .vstruct vs, S => match S with | .sstruct ts => hasShapeL vs ts | _ => false
  | .vmap es, S => match S with | .smap tk tv => hasShapeE es tk tv | _ => false
  | .vunitVariant i, S =>
    match S with
    | .senum vars => (match variantLookup vars i with | some .wunit => true | _ => false)
    | _ => false
  | .vnewtypeVariant i v, S =>
    match S with
    | .senum vars =>
      (match variantLookup vars i with | some (.wnewtype t) => hasShape v t | _ => false)
    | _ => false
  | .vtupleVariant i vs, S =>
    match S with
    | .senum vars =>
      (match variantLookup vars i with | some (.wtuple ts) => hasShapeL vs ts | _ => false)
    | _ => false
  | .vstructVariant i vs, S =>
    match S with
    | .senum vars =>
      (match variantLookup vars i with | some (.wstruct ts) => hasShapeL vs ts | _ => false)
    | _ => false

/-- Positional typing of tuple/struct fields. -/
def hasShapeL : ValueList → ShapeList → Bool
  | .nil, ts => match ts with | .nil => true | _ => false
  | .cons v vs, ts => match ts with | .cons t ts' => hasShape v t && hasShapeL vs ts' | _ => false

/-- Homogeneous typing of sequence elements. -/
def hasShapeSeq : ValueList → Shape → Bool
  | .nil, _ => true
  | .cons v vs, t => hasShape v t && hasShapeSeq vs t

/-- Typing of map entries against the key and value shapes. -/
def hasShapeE : EntryList → Shape → Shape → Bool
  | .nil, _, _ => true
  | .cons k v es, tk, tv => hasShape k tk && hasShape v tv && hasShapeE es tk tv
end

/-- Number of elements of a value list. -/
def lengthVL : ValueList → Nat
  | .nil => 0
  | .cons _ vs => lengthVL vs + 1

/-- Number of entries of an entry list. -/
def lengthVE : EntryList → Nat
  | .nil => 0
  | .cons _ _ es => lengthVE es + 1

/-! Generic list and arithmetic facts used throughout. -/

theorem take_len_app (a b : List Nat) : (a ++ b).take a.length = a := by
  induction a with
  | nil => simp
  | cons x xs ih => simp [ih]

theorem drop_len_add_app (a b : List Nat) (k : Nat) : (a ++ b).drop (a.length + k) = b.drop k := by
  induction a with
  | nil => simp
  | cons x xs ih =>
    have h : (x :: xs).length + k = (xs.length + k) + 1 := by simp [Nat.add_right_comm]
    rw [List.cons_append, h, List.drop_succ_cons, ih]

theorem drop_len_app (a b : List Nat) : (a ++ b).drop a.length = b := by
  simp

theorem u32_le_length (n : Nat) : (u32_le n).length = 4 := by
  simp [u32_le]

theorem from_le4_u32_le (n : Nat) (h : n < 2 ^ 32) : from_le4 (u32_le n) = n := by
  simp only [from_le4, u32_le, List.headD, List.tail]
  omega

theorem wrap_sub_exact (a b : Nat) (hb : b ≤ a) (ha : a < USIZE) :
    usize_wrap_sub a b = a - b := by
  simp only [usize_wrap_sub, USIZE] at *
  omega

/-! Positioned read lemmas for the decoder's primitive reads. -/

theorem read_bytes_at (pre mid post : List Nat) (len : Nat) (h : mid.length = len) :
    read_bytes (pre ++ mid ++ post) pre.length len = .ok (mid, pre.length + len) := by
  subst h
  have h1 : ¬ ((pre ++ mid ++ post).length < pre.length + mid.length) := by
    simp [List.length_append]
  have h2 : ((pre ++ mid ++ post).drop pre.length).take mid.length = mid := by
    rw [List.append_assoc, drop_len_app, take_len_app]
  simp only [read_bytes, if_neg h1, h2]

theorem read_byte_at (pre post : List Nat) (b : Nat) :
    read_byte (pre ++ b :: post) pre.length = .ok (b, pre.length + 1) := by
  have hr : read_bytes (pre ++ b :: post) pre.length 1 = .ok ([b], pre.length + 1) := by
    simpa using read_bytes_at pre [b] post 1 rfl
  unfold read_byte
  rw [hr]
  rfl

theorem read_u32_at (pre post : List Nat) (n : Nat) (h : n < 2 ^ 32) :
    read_u32 (pre ++ u32_le n ++ post) pre.length = .ok (n, pre.length + 4) := by
  have hr : read_bytes (pre ++ u32_le n ++ post) pre.length 4 = .ok (u32_le n, pre.length + 4) :=
    read_bytes_at pre (u32_le n) post 4 (u32_le_length n)
  unfold read_u32
  rw [hr]
  simp [from_le4_u32_le n h]

/-! Structural facts about the canonical encoding and the predicates. -/

theorem encV_pos : ∀ v : Value, 1 ≤ (encV v).length
  | .vbool b => by simp [encV]
  | .vu8 n => by simp [encV]
  | .vu32 n => by simp [encV, u32_le]
  | .vi32 n => by simp [encV]
  | .vu64 n => by simp [encV]
  | .vf64 n => by simp [encV]
  | .vchar n => by simp [encV]
  | .vstr s => by simp [encV]
  | .vbytes s => by simp [encV]
  | .vnone => by simp [encV]
  | .vsome v => by simp [encV]
  | .vunit => by simp [encV]
  | .vunitStruct => by simp [encV]
  | .vnewtypeStruct v => by simpa [encV] using encV_pos v
  | .vseq vs => by simp [encV, u32_le]
  | .vtuple vs => by simp [encV, u32_le]
  | .vtupleStruct vs => by simp [encV, u32_le]
  | .vstruct vs => by simp [encV, u32_le]
  | .vmap es => by simp [encV, u32_le]
  | .vunitVariant i => by simp [encV, u32_le]
  | .vnewtypeVariant i v => by simp [encV, u32_le]
  | .vtupleVariant i vs => by simp [encV, u32_le]
  | .vstructVariant i vs => by simp [encV, u32_le]

theorem lengthVL_le : ∀ vs : ValueList, lengthVL vs ≤ (encVL vs).length
  | .nil => by simp [lengthVL, encVL]
  | .cons v vs => by
    have h1 := encV_pos v
    have h2 := lengthVL_le vs
    simp only [lengthVL, encVL, List.length_append]
    omega

theorem lengthVE_le : ∀ es : EntryList, lengthVE es ≤ (encVE es).length
  | .nil => by simp [lengthVE, encVE]
  | .cons k v es => by
    have h1 := encV_pos k
    have h2 := encV_pos v
    have h3 := lengthVE_le es
    simp only [lengthVE, encVE, List.length_append]
    omega

mutual
theorem okF_mono : ∀ v : Value, okF true v = true → okF false v = true
  | .vbool _, _ => by simp [okF]
  | .vu8 _, _ => by simp [okF]
  | .vu32 _, _ => by simp [okF]
  | .vi32 _, h => by simp [okF] at h
  | .vu64 _, h => by simp [okF] at h
  | .vf64 _, h => by simp [okF] at h
  | .vchar _, h => by simp [okF] at h
  | .vstr _, h => by simp [okF] at h
  | .vbytes _, h => by simp [okF] at h
  | .vnone, _ => by simp [okF]
  | .vsome v, h => by
    simp only [okF] at h ⊢
    exact okF_mono v h
  | .vunit, _ => by simp [okF]
  | .vunitStruct, _ => by simp [okF]
  | .vnewtypeStruct v, h => by
    simp only [okF] at h ⊢
    exact okF_mono v h
  | .vseq vs, h => by
    simp [okF] at h ⊢
    exact okFL_mono vs h.1
  | .vtuple vs, h => by
    simp [okF] at h ⊢
    exact okFL_mono vs h.1
  | .vtupleStruct vs, h => by
    simp [okF] at h ⊢
    exact okFL_mono vs h.1
  | .vstruct vs, h => by
    simp [okF] at h ⊢
    exact okFL_mono vs h.1
  | .vmap es, h => by
    simp [okF] at h ⊢
    exact okFE_mono es h.1
  | .vunitVariant i, h => by simpa [okF] using h
  | .vtupleVariant i vs, h => by
    simp [okF] at h ⊢
    exact ⟨h.1.1, okFL_mono vs h.1.2⟩
  | .vstructVariant i vs, h => by
    simp [okF] at h ⊢
    exact ⟨h.1.1, okFL_mono vs h.1.2⟩
  | .vnewtypeVariant _ _, h => by simp [okF] at h

theorem okFL_mono : ∀ vs : ValueList, okFL true vs = true → okFL false vs = true
  | .nil, _ => by simp [okFL]
  | .cons v vs, h => by
    simp [okFL] at h ⊢
    exact ⟨okF_mono v h.1, okFL_mono vs h.2⟩

theorem okFE_mono : ∀ es : EntryList, okFE true es = true → okFE false es = true
  | .nil, _ => by simp [okFE]
  | .cons k v es, h => by
    simp only [okFE, Bool.and_eq_true] at h ⊢
    exact ⟨⟨okF_mono k h.1.1, okF_mono v h.1.2⟩, okFE_mono es h.2⟩
end

theorem okF_spineF : ∀ (s : Bool) (v : Value), okF s v = true → spineF s v = true
  | s, .vbool b, h => by simpa [spineF] using h
  | s, .vu8 n, h => by simpa [spineF] using h
  | s, .vu32 n, h => by simpa [spineF] using h
  | s, .vi32 n, h => by simp [okF] at h
  | s, .vu64 n, h => by simp [okF] at h
  | s, .vf64 n, h => by simp [okF] at h
  | s, .vchar n, h => by simp [okF] at h
  | s, .vstr x, h => by simp [okF] at h
  | s, .vbytes x, h => by simp [okF] at h
  | s, .vnone, h => by simpa [spineF] using h
  | s, .vsome v, h => by
    simp only [okF] at h
    simpa [spineF] using okF_spineF s v h
  | s, .vunit, h => by simpa [spineF] using h
  | s, .vunitStruct, h => by simpa [spineF] using h
  | s, .vnewtypeStruct v, h => by
    simp only [okF] at h
    simpa [spineF] using okF_spineF s v h
  | s, .vseq vs, h => by simpa [spineF] using h
  | s, .vtuple vs, h => by simpa [spineF] using h
  | s, .vtupleStruct vs, h => by simpa [spineF] using h
  | s, .vstruct vs, h => by simpa [spineF] using h
  | s, .vmap es, h => by simpa [spineF] using h
  | s, .vunitVariant i, h => by simpa [spineF] using h
  | s, .vnewtypeVariant i v, h => by simp [okF] at h
  | s, .vtupleVariant i vs, h => by simpa [spineF] using h
  | s, .vstructVariant i vs, h => by simpa [spineF] using h

theorem spineF_mono : ∀ v : Value, spineF true v = true → spineF false v = true
  | .vsome v, h => by
    simp only [spineF] at h ⊢
    exact spineF_mono v h
  | .vnewtypeStruct v, h => by
    simp only [spineF] at h ⊢
    exact spineF_mono v h
  | .vnewtypeVariant i v, h => by
    simp [spineF] at h ⊢
    exact ⟨h.1, spineF_mono v h.2⟩
  | .vbool b, h => by simp [spineF, okF] at h ⊢
  | .vu8 n, h => by simp [spineF, okF]
  | .vu32 n, h => by simp [spineF, okF]
  | .vi32 n, h => by simp [spineF, okF] at h
  | .vu64 n, h => by simp [spineF, okF] at h
  | .vf64 n, h => by simp [spineF, okF] at h
  | .vchar n, h => by simp [spineF, okF] at h
  | .vstr x, h => by simp [spineF, okF] at h
  | .vbytes x, h => by simp [spineF, okF] at h
  | .vnone, h => by simp [spineF, okF]
  | .vunit, h => by simp [spineF, okF]
  | .vunitStruct, h => by simp [spineF, okF]
  | .vseq vs, h => by
    simp [spineF, okF] at h ⊢
    exact okFL_mono vs h.1
  | .vtuple vs, h => by
    simp [spineF, okF] at h ⊢
    exact okFL_mono vs h.1
  | .vtupleStruct vs, h => by
    simp [spineF, okF] at h ⊢
    exact okFL_mono vs h.1
  | .vstruct vs, h => by
    simp [spineF, okF] at h ⊢
    exact okFL_mono vs h.1
  | .vmap es, h => by
    simp [spineF, okF] at h ⊢
    exact okFE_mono es h.1
  | .vunitVariant i, h => by simpa [spineF, okF] using h
  | .vtupleVariant i vs, h => by
    simp [spineF, okF] at h ⊢
    exact ⟨h.1.1, okFL_mono vs h.1.2⟩
  | .vstructVariant i vs, h => by
    simp [spineF, okF] at h ⊢
    exact ⟨h.1.1, okFL_mono vs h.1.2⟩

/-- Backpatch characterization: closing a container whose placeholder sits at
the top of the offsets stack overwrites the placeholder with the payload's
byte length (reduced mod `2 ^ 32`) and pops the stack. -/
theorem end_bytelen_char (pre payload offs : List Nat) :
    end_bytelen_encoding ⟨pre ++ (u32_le 0 ++ payload), pre.length :: offs⟩ =
      ⟨pre ++ (u32_le (payload.length % 2 ^ 32) ++ payload), offs⟩ := by
  have htake : (pre ++ (u32_le 0 ++ payload)).take pre.length = pre :=
    take_len_app pre (u32_le 0 ++ payload)
  have hdrop : (pre ++ (u32_le 0 ++ payload)).drop (pre.length + 4) = payload := by
    rw [drop_len_add_app]
    have h4 : (4 : Nat) = (u32_le 0).length := by simp [u32_le]
    rw [h4, drop_len_app]
  simp [end_bytelen_encoding, htake, hdrop]
  have h4 : (u32_le 0).length + payload.length - 4 = payload.length := by simp [u32_le]
  rw [h4]

mutual
/-- Characterization of the serializer on well-formed inner values: it appends
exactly the canonical image and leaves the offsets stack as it found it (every
reserved placeholder is backpatched and popped). -/
theorem serChar : ∀ v : Value, okF false v = true → ∀ st : SerState,
    serialize v st = (⟨st.buffer ++ encV v, st.offsets⟩, none)
  | .vbool b, _, st => by simp [serialize, encV]
  | .vu8 n, _, st => by simp [serialize, encV]
  | .vu32 n, _, st => by simp [serialize, encV]
  | .vi32 n, h, st => by simp [okF] at h
  | .vu64 n, h, st => by simp [okF] at h
  | .vf64 n, h, st => by simp [okF] at h
  | .vchar n, h, st => by simp [okF] at h
  | .vstr s, h, st => by simp [okF] at h
  | .vbytes s, h, st => by simp [okF] at h
  | .vnone, _, st => by simp [serialize, encV]
  | .vsome v, h, st => by
    have hv : okF false v = true := by simpa [okF] using h
    have hs := serChar v hv ⟨st.buffer ++ [1], st.offsets⟩
    simp only [serialize]
    rw [hs]
    simp [encV]
  | .vunit, _, st => by simp [serialize, encV]
  | .vunitStruct, _, st => by simp [serialize, encV]
  | .vnewtypeStruct v, h, st => by
    have hv : okF false v = true := by simpa [okF] using h
    simp only [serialize, encV]
    exact serChar v hv st
  | .vseq vs, h, st => by
    have hl : okFL false vs = true := by simpa [okF] using h
    have hse := serCharL vs hl (start_bytelen_encoding st)
    simp only [start_bytelen_encoding] at hse
    simp only [serialize, start_bytelen_encoding, hse, List.append_assoc]
    rw [end_bytelen_char st.buffer (encVL vs) st.offsets]
    simp [encV]
  | .vtuple vs, h, st => by
    have hl : okFL false vs = true := by simpa [okF] using h
    have hse := serCharL vs hl (start_bytelen_encoding st)
    simp only [start_bytelen_encoding] at hse
    simp only [serialize, start_bytelen_encoding, hse, List.append_assoc]
    rw [end_bytelen_char st.buffer (encVL vs) st.offsets]
    simp [encV]
  | .vtupleStruct vs, h, st => by
    have hl : okFL false vs = true := by simpa [okF] using h
    have hse := serCharL vs hl (start_bytelen_encoding st)
    simp only [start_bytelen_encoding] at hse
    simp only [serialize, start_bytelen_encoding, hse, List.append_assoc]
    rw [end_bytelen_char st.buffer (encVL vs) st.offsets]
    simp [encV]
  | .vstruct vs, h, st => by
    have hl : okFL false vs = true := by simpa [okF] using h
    have hse := serCharL vs hl (start_bytelen_encoding st)
    simp only [start_bytelen_encoding] at hse
    simp only [serialize, start_bytelen_encoding, hse, List.append_assoc]
    rw [end_bytelen_char st.buffer (encVL vs) st.offsets]
    simp [encV]
  | .vmap es, h, st => by
    have hl : okFE false es = true := by simpa [okF] using h
    have hse := serCharE es hl (start_bytelen_encoding st)
    simp only [start_bytelen_encoding] at hse
    simp only [serialize, start_bytelen_encoding, hse, List.append_assoc]
    rw [end_bytelen_char st.buffer (encVE es) st.offsets]
    simp [encV]
  | .vunitVariant i, h, st => by
    have hi : i ≤ 255 := by simpa [okF] using h
    simp only [serialize, start_bytelen_encoding, if_pos hi]
    rw [List.append_assoc, end_bytelen_char st.buffer [i % 256] st.offsets]
    simp [encV]
  | .vnewtypeVariant i v, h, st => by simp [okF] at h
  | .vtupleVariant i vs, h, st => by
    have h' : i ≤ 255 ∧ okFL false vs = true := by simpa [okF] using h
    have hse := serCharL vs h'.2
      ⟨st.buffer ++ u32_le 0 ++ [i % 256], st.buffer.length :: st.offsets⟩
    simp only [serialize, start_bytelen_encoding, if_pos h'.1, hse]
    have hb : st.buffer ++ u32_le 0 ++ [i % 256] ++ encVL vs =
        st.buffer ++ (u32_le 0 ++ (i % 256 :: encVL vs)) := by simp
    rw [hb, end_bytelen_char st.buffer (i % 256 :: encVL vs) st.offsets]
    simp [encV]
  | .vstructVariant i vs, h, st => by
    have h' : i ≤ 255 ∧ okFL false vs = true := by simpa [okF] using h
    have hse := serCharL vs h'.2
      ⟨st.buffer ++ u32_le 0 ++ [i % 256], st.buffer.length :: st.offsets⟩
    simp only [serialize, start_bytelen_encoding, if_pos h'.1, hse]
    have hb : st.buffer ++ u32_le 0 ++ [i % 256] ++ encVL vs =
        st.buffer ++ (u32_le 0 ++ (i % 256 :: encVL vs)) := by simp
    rw [hb, end_bytelen_char st.buffer (i % 256 :: encVL vs) st.offsets]
    simp [encV]

/-- Elementwise serializer characterization for container payloads. -/
theorem serCharL : ∀ vs : ValueList, okFL false vs = true → ∀ st : SerState,
    serializeElems vs st = (⟨st.buffer ++ encVL vs, st.offsets⟩, none)
  | .nil, _, st => by simp [serializeElems, encVL]
  | .cons v vs, h, st => by
    have h' : okF false v = true ∧ okFL false vs = true := by simpa [okFL] using h
    have hv := serChar v h'.1 st
    have hvs := serCharL vs h'.2 ⟨st.buffer ++ encV v, st.offsets⟩
    simp only [serializeElems, hv, hvs]
    simp [encVL]

/-- Entrywise serializer characterization for map payloads. -/
theorem serCharE : ∀ es : EntryList, okFE false es = true → ∀ st : SerState,
    serializeEntries es st = (⟨st.buffer ++ encVE es, st.offsets⟩, none)
  | .nil, _, st => by simp [serializeEntries, encVE]
  | .cons k v es, h, st => by
    have h' : (okF false k = true ∧ okF false v = true) ∧ okFE false es = true := by
      simpa [okFE, Bool.and_eq_true] using h
    have hk := serChar k h'.1.1 st
    have hv := serChar v h'.1.2 ⟨st.buffer ++ encV k, st.offsets⟩
    have hes := serCharE es h'.2 ⟨st.buffer ++ encV k ++ encV v, st.offsets⟩
    simp only [serializeEntries, hk, hv, hes]
    simp [encVE]
end

/-- Characterization of the serializer on well-formed top-level values: along
the outermost spine newtype variants are allowed; each one leaves its never
popped placeholder offset behind, so the offsets stack may grow by some junk,
but the bytes produced are still the canonical image. -/
theorem serCharSpine : ∀ v : Value, spineF false v = true → ∀ st : SerState,
    ∃ junk : List Nat, serialize v st = (⟨st.buffer ++ encV v, junk ++ st.offsets⟩, none)
  | .vsome v, h, st => by
    have hv : spineF false v = true := by simpa [spineF] using h
    obtain ⟨junk, hj⟩ := serCharSpine v hv ⟨st.buffer ++ [1], st.offsets⟩
    refine ⟨junk, ?_⟩
    simp only [serialize]
    rw [hj]
    simp [encV]
  | .vnewtypeStruct v, h, st => by
    have hv : spineF false v = true := by simpa [spineF] using h
    obtain ⟨junk, hj⟩ := serCharSpine v hv st
    refine ⟨junk, ?_⟩
    simp only [serialize, encV]
    exact hj
  | .vnewtypeVariant i v, h, st => by
    have h' : i ≤ 255 ∧ spineF false v = true := by simpa [spineF] using h
    obtain ⟨junk, hj⟩ := serCharSpine v h'.2
      ⟨st.buffer ++ u32_le 0 ++ [i % 256], st.buffer.length :: st.offsets⟩
    refine ⟨junk ++ [st.buffer.length], ?_⟩
    simp only [serialize, start_bytelen_encoding, if_pos h'.1]
    rw [hj]
    simp [encV]
  | .vbool b, h, st => ⟨[], by simpa using serChar (.vbool b) (by simpa [spineF] using h) st⟩
  | .vu8 n, h, st => ⟨[], by simpa using serChar (.vu8 n) (by simpa [spineF] using h) st⟩
  | .vu32 n, h, st => ⟨[], by simpa using serChar (.vu32 n) (by simpa [spineF] using h) st⟩
  | .vi32 n, h, st => by simp [spineF, okF] at h
  | .vu64 n, h, st => by simp [spineF, okF] at h
  | .vf64 n, h, st => by simp [spineF, okF] at h
  | .vchar n, h, st => by simp [spineF, okF] at h
  | .vstr s, h, st => by simp [spineF, okF] at h
  | .vbytes s, h, st => by simp [spineF, okF] at h
  | .vnone, h, st => ⟨[], by simpa using serChar .vnone (by simpa [spineF] using h) st⟩
  | .vunit, h, st => ⟨[], by simpa using serChar .vunit (by simpa [spineF] using h) st⟩
  | .vunitStruct, h, st =>
    ⟨[], by simpa using serChar .vunitStruct (by simpa [spineF] using h) st⟩
  | .vseq vs, h, st => ⟨[], by simpa using serChar (.vseq vs) (by simpa [spineF] using h) st⟩
  | .vtuple vs, h, st =>
    ⟨[], by simpa using serChar (.vtuple vs) (by simpa [spineF] using h) st⟩
  | .vtupleStruct vs, h, st =>
    ⟨[], by simpa using serChar (.vtupleStruct vs) (by simpa [spineF] using h) st⟩
  | .vstruct vs, h, st =>
    ⟨[], by simpa using serChar (.vstruct vs) (by simpa [spineF] using h) st⟩
  | .vmap es, h, st => ⟨[], by simpa using serChar (.vmap es) (by simpa [spineF] using h) st⟩
  | .vunitVariant i, h, st =>
    ⟨[], by simpa using serChar (.vunitVariant i) (by simpa [spineF] using h) st⟩
  | .vtupleVariant i vs, h, st =>
    ⟨[], by simpa using serChar (.vtupleVariant i vs) (by simpa [spineF] using h) st⟩
  | .vstructVariant i vs, h, st =>
    ⟨[], by simpa using serChar (.vstructVariant i vs) (by simpa [spineF] using h) st⟩

/-- On well-formed top-level values, `to_bytes` succeeds with the canonical
byte image. -/
theorem to_bytes_char (v : Value) (h : spineF false v = true) : to_bytes v = .ok (encV v) := by
  obtain ⟨junk, hj⟩ := serCharSpine v h ⟨[], []⟩
  simp only [List.nil_append, List.append_nil] at hj
  simp [to_bytes, hj]

/-! Positioned read lemmas in the right-nested append normal form that `simp`
produces, plus reads placed after a length word. -/

theorem read_u32_at' (pre post : List Nat) (n : Nat) (h : n < 2 ^ 32) :
    read_u32 (pre ++ (u32_le n ++ post)) pre.length = .ok (n, pre.length + 4) := by
  have := read_u32_at pre post n h
  rwa [List.append_assoc] at this

theorem read_byte_after_u32 (pre rest : List Nat) (x b : Nat) :
    read_byte (pre ++ (u32_le x ++ b :: rest)) (pre.length + 4) = .ok (b, pre.length + 5) := by
  have h := read_byte_at (pre ++ u32_le x) rest b
  rw [List.append_assoc] at h
  simpa [u32_le, Nat.add_assoc] using h

/-- Walking the variant table: a countdown landing on a unit variant. -/
theorem variantDispatch_unit : ∀ (vars : VariantList) (n idx remaining : Nat)
    (buffer : List Nat) (pos : Nat), variantLookup vars n = some .wunit →
    variantDispatch vars n idx remaining buffer pos = .ok (.vunitVariant idx, pos)
  | .nil, n, _, _, _, _, hw => by simp [variantLookup] at hw
  | .cons w' ws, 0, idx, remaining, buffer, pos, hw => by
    cases w' <;> simp [variantLookup] at hw
    simp [variantDispatch]
  | .cons w' ws, n + 1, idx, remaining, buffer, pos, hw => by
    simp only [variantLookup] at hw
    simp only [variantDispatch]
    exact variantDispatch_unit ws n idx remaining buffer pos hw

/-- Walking the variant table: a countdown landing on a newtype variant. -/
theorem variantDispatch_newtype : ∀ (vars : VariantList) (n idx remaining : Nat)
    (buffer : List Nat) (pos : Nat) (t : Shape), variantLookup vars n = some (.wnewtype t) →
    variantDispatch vars n idx remaining buffer pos =
      (match deserialize t buffer pos with
       | .ok (v, p) => .ok (.vnewtypeVariant idx v, p)
       | .error e => .error e)
  | .nil, n, _, _, _, _, _, hw => by simp [variantLookup] at hw
  | .cons w' ws, 0, idx, remaining, buffer, pos, t, hw => by
    cases w' <;> simp [variantLookup] at hw
    subst hw
    simp [variantDispatch]
  | .cons w' ws, n + 1, idx, remaining, buffer, pos, t, hw => by
    simp only [variantLookup] at hw
    simp only [variantDispatch]
    exact variantDispatch_newtype ws n idx remaining buffer pos t hw

/-- Walking the variant table: a countdown landing on a tuple variant. -/
theorem variantDispatch_tuple : ∀ (vars : VariantList) (n idx remaining : Nat)
    (buffer : List Nat) (pos : Nat) (ts : ShapeList), variantLookup vars n = some (.wtuple ts) →
    variantDispatch vars n idx remaining buffer pos =
      (match seqFixed ts remaining buffer pos with
       | .ok (vs, p) => .ok (.vtupleVariant idx vs, p)
       | .error e => .error e)
  | .nil, n, _, _, _, _, _, hw => by simp [variantLookup] at hw
  | .cons w' ws, 0, idx, remaining, buffer, pos, ts, hw => by
    cases w' <;> simp [variantLookup] at hw
    subst hw
    simp [variantDispatch]
  | .cons w' ws, n + 1, idx, remaining, buffer, pos, ts, hw => by
    simp only [variantLookup] at hw
    simp only [variantDispatch]
    exact variantDispatch_tuple ws n idx remaining buffer pos ts hw

/-- Walking the variant table: a countdown landing on a struct variant. -/
theorem variantDispatch_struct : ∀ (vars : VariantList) (n idx remaining : Nat)
    (buffer : List Nat) (pos : Nat) (ts : ShapeList), variantLookup vars n = some (.wstruct ts) →
    variantDispatch vars n idx remaining buffer pos =
      (match seqFixed ts remaining buffer pos with
       | .ok (vs, p) => .ok (.vstructVariant idx vs, p)
       | .error e => .error e)
  | .nil, n, _, _, _, _, _, hw => by simp [variantLookup] at hw
  | .cons w' ws, 0, idx, remaining, buffer, pos, ts, hw => by
    cases w' <;> simp [variantLookup] at hw
    subst hw
    simp [variantDispatch]
  | .cons w' ws, n + 1, idx, remaining, buffer, pos, ts, hw => by
    simp only [variantLookup] at hw
    simp only [variantDispatch]
    exact variantDispatch_struct ws n idx remaining buffer pos ts hw

/-- Walking the variant table: a countdown beyond the known variants fails
with the malformed-data error. -/
theorem variantDispatch_none : ∀ (vars : VariantList) (n idx remaining : Nat)
    (buffer : List Nat) (pos : Nat), variantLookup vars n = none →
    variantDispatch vars n idx remaining buffer pos = .error (.Custom ("invalid variant index"))
  | .nil, n, _, _, _, _, _ => by simp [variantDispatch]
  | .cons w' ws, 0, idx, remaining, buffer, pos, hw => by simp [variantLookup] at hw
  | .cons w' ws, n + 1, idx, remaining, buffer, pos, hw => by
    simp only [variantLookup] at hw
    simp only [variantDispatch]
    exact variantDispatch_none ws n idx remaining buffer pos hw

mutual
/-- Decoder characterization (round-trip core): decoding the canonical image
of a strictly well-formed value of shape `S`, placed at an arbitrary position
inside a larger buffer, succeeds with that value and consumes exactly its
image. -/
theorem decChar : ∀ (v : Value) (S : Shape), hasShape v S = true → spineF true v = true →
    ∀ pre post : List Nat,
      deserialize S (pre ++ encV v ++ post) pre.length = .ok (v, pre.length + (encV v).length)
  | .vbool b, S, hs, hw, pre, post => by simp [spineF, okF] at hw
  | .vi32 n, S, hs, hw, pre, post => by simp [hasShape] at hs
  | .vu64 n, S, hs, hw, pre, post => by simp [hasShape] at hs
  | .vf64 n, S, hs, hw, pre, post => by simp [hasShape] at hs
  | .vchar n, S, hs, hw, pre, post => by simp [hasShape] at hs
  | .vstr s, S, hs, hw, pre, post => by simp [hasShape] at hs
  | .vbytes s, S, hs, hw, pre, post => by simp [hasShape] at hs
  | .vu8 n, S, hs, hw, pre, post => by
    cases S <;> simp [hasShape] at hs
    have hn : n < 256 := by simpa [spineF, okF] using hw
    have hb : pre ++ encV (.vu8 n) ++ post = pre ++ n % 256 :: post := by simp [encV]
    rw [hb]
    simp only [deserialize]
    rw [read_byte_at pre post (n % 256)]
    simp [encV, Nat.mod_eq_of_lt hn]
  | .vu32 n, S, hs, hw, pre, post => by
    cases S <;> simp [hasShape] at hs
    have hn : n < 2 ^ 32 := by simpa [spineF, okF] using hw
    have hm : n % 4294967296 = n := Nat.mod_eq_of_lt (by omega)
    have hb : pre ++ encV (.vu32 n) ++ post = pre ++ (u32_le n ++ post) := by
      simp [encV, hm]
    rw [hb]
    simp only [deserialize]
    rw [read_u32_at' pre post n hn]
    simp [encV, u32_le]
  | .vnone, S, hs, hw, pre, post => by
    cases S <;> simp [hasShape] at hs
    have hb : pre ++ encV .vnone ++ post = pre ++ 0 :: post := by simp [encV]
    rw [hb]
    simp only [deserialize]
    rw [read_byte_at pre post 0]
    simp [encV]
  | .vsome v, S, hs, hw, pre, post => by
    cases S <;> simp [hasShape] at hs
    rename_i t
    have hw' : spineF true v = true := by simpa [spineF] using hw
    have ih := decChar v t hs hw' (pre ++ [1]) post
    have hb2 : (pre ++ [1]) ++ encV v ++ post = pre ++ 1 :: (encV v ++ post) := by simp
    have hb3 : (pre ++ [1]).length = pre.length + 1 := by simp
    rw [hb2, hb3] at ih
    have hb : pre ++ encV (.vsome v) ++ post = pre ++ 1 :: (encV v ++ post) := by simp [encV]
    rw [hb]
    simp only [deserialize]
    rw [read_byte_at pre (encV v ++ post) 1]
    simp [ih, encV]
    try omega
  | .vunit, S, hs, hw, pre, post => by
    cases S <;> simp [hasShape] at hs
    have hb : pre ++ encV .vunit ++ post = pre ++ 0 :: post := by simp [encV]
    rw [hb]
    simp only [deserialize]
    rw [read_byte_at pre post 0]
    simp [encV]
  | .vunitStruct, S, hs, hw, pre, post => by
    cases S <;> simp [hasShape] at hs
    have hb : pre ++ encV .vunitStruct ++ post = pre ++ 0 :: post := by simp [encV]
    rw [hb]
    simp only [deserialize]
    rw [read_byte_at pre post 0]
    simp [encV]
  | .vnewtypeStruct v, S, hs, hw, pre, post => by
    cases S <;> simp [hasShape] at hs
    rename_i t
    have hw' : spineF true v = true := by simpa [spineF] using hw
    have ih := decChar v t hs hw' pre post
    simp only [deserialize, encV]
    rw [ih]
  | .vseq vs, S, hs, hw, pre, post => by
    cases S <;> simp [hasShape] at hs
    rename_i t
    have hw' : okFL true vs = true ∧ (encVL vs).length < 2 ^ 32 := by
      simpa [spineF, okF] using hw
    have hmod : (encVL vs).length % 4294967296 = (encVL vs).length :=
      Nat.mod_eq_of_lt (by have := hw'.2; omega)
    have hb : pre ++ encV (.vseq vs) ++ post =
        pre ++ (u32_le (encVL vs).length ++ (encVL vs ++ post)) := by simp [encV, hmod]
    rw [hb]
    have hfuel : lengthVL vs <
        (pre ++ (u32_le (encVL vs).length ++ (encVL vs ++ post))).length + 1 := by
      have h1 := lengthVL_le vs
      simp [u32_le]
      omega
    have ihs := decCharSeq vs t hs hw'.1
      ((pre ++ (u32_le (encVL vs).length ++ (encVL vs ++ post))).length + 1)
      (pre ++ u32_le (encVL vs).length) post hfuel
      (by have := hw'.2; simp only [USIZE]; omega)
    have hb2 : (pre ++ u32_le (encVL vs).length) ++ encVL vs ++ post =
        pre ++ (u32_le (encVL vs).length ++ (encVL vs ++ post)) := by simp
    have hb3 : (pre ++ u32_le (encVL vs).length).length = pre.length + 4 := by simp [u32_le]
    rw [hb2, hb3] at ihs
    simp only [deserialize]
    simp only [read_u32_at' pre (encVL vs ++ post) (encVL vs).length hw'.2]
    rw [ihs]
    simp [encV, u32_le_length]
    try omega
  | .vtuple vs, S, hs, hw, pre, post => by
    cases S <;> simp [hasShape] at hs
    rename_i ts
    have hw' : okFL true vs = true ∧ (encVL vs).length < 2 ^ 32 := by
      simpa [spineF, okF] using hw
    have hmod : (encVL vs).length % 4294967296 = (encVL vs).length :=
      Nat.mod_eq_of_lt (by have := hw'.2; omega)
    have hb : pre ++ encV (.vtuple vs) ++ post =
        pre ++ (u32_le (encVL vs).length ++ (encVL vs ++ post)) := by simp [encV, hmod]
    rw [hb]
    have ihl := decCharL vs ts hs hw'.1 0 (pre ++ u32_le (encVL vs).length) post
      (by have := hw'.2; simp only [USIZE]; omega)
    have hb2 : (pre ++ u32_le (encVL vs).length) ++ encVL vs ++ post =
        pre ++ (u32_le (encVL vs).length ++ (encVL vs ++ post)) := by simp
    have hb3 : (pre ++ u32_le (encVL vs).length).length = pre.length + 4 := by simp [u32_le]
    rw [hb2, hb3] at ihl
    simp only [Nat.add_zero] at ihl
    simp only [deserialize]
    simp only [read_u32_at' pre (encVL vs ++ post) (encVL vs).length hw'.2]
    rw [ihl]
    simp [encV, u32_le_length]
    try omega
  | .vtupleStruct vs, S, hs, hw, pre, post => by
    cases S <;> simp [hasShape] at hs
    rename_i ts
    have hw' : okFL true vs = true ∧ (encVL vs).length < 2 ^ 32 := by
      simpa [spineF, okF] using hw
    have hmod : (encVL vs).length % 4294967296 = (encVL vs).length :=
      Nat.mod_eq_of_lt (by have := hw'.2; omega)
    have hb : pre ++ encV (.vtupleStruct vs) ++ post =
        pre ++ (u32_le (encVL vs).length ++ (encVL vs ++ post)) := by simp [encV, hmod]
    rw [hb]
    have ihl := decCharL vs ts hs hw'.1 0 (pre ++ u32_le (encVL vs).length) post
      (by have := hw'.2; simp only [USIZE]; omega)
    have hb2 : (pre ++ u32_le (encVL vs).length) ++ encVL vs ++ post =
        pre ++ (u32_le (encVL vs).length ++ (encVL vs ++ post)) := by simp
    have hb3 : (pre ++ u32_le (encVL vs).length).length = pre.length + 4 := by simp [u32_le]
    rw [hb2, hb3] at ihl
    simp only [Nat.add_zero] at ihl
    simp only [deserialize]
    simp only [read_u32_at' pre (encVL vs ++ post) (encVL vs).length hw'.2]
    rw [ihl]
    simp [encV, u32_le_length]
    try omega
  | .vstruct vs, S, hs, hw, pre, post => by
    cases S <;> simp [hasShape] at hs
    rename_i ts
    have hw' : okFL true vs = true ∧ (encVL vs).length < 2 ^ 32 := by
      simpa [spineF, okF] using hw
    have hmod : (encVL vs).length % 4294967296 = (encVL vs).length :=
      Nat.mod_eq_of_lt (by have := hw'.2; omega)
    have hb : pre ++ encV (.vstruct vs) ++ post =
        pre ++ (u32_le (encVL vs).length ++ (encVL vs ++ post)) := by simp [encV, hmod]
    rw [hb]
    have ihl := decCharL vs ts hs hw'.1 0 (pre ++ u32_le (encVL vs).length) post
      (by have := hw'.2; simp only [USIZE]; omega)
    have hb2 : (pre ++ u32_le (encVL vs).length) ++ encVL vs ++ post =
        pre ++ (u32_le (encVL vs).length ++ (encVL vs ++ post)) := by simp
    have hb3 : (pre ++ u32_le (encVL vs).length).length = pre.length + 4 := by simp [u32_le]
    rw [hb2, hb3] at ihl
    simp only [Nat.add_zero] at ihl
    simp only [deserialize]
    simp only [read_u32_at' pre (encVL vs ++ post) (encVL vs).length hw'.2]
    rw [ihl]
    simp [encV, u32_le_length]
    try omega
  | .vmap es, S, hs, hw, pre, post => by
    cases S <;> simp [hasShape] at hs
    rename_i tk tv
    have hw' : okFE true es = true ∧ (encVE es).length < 2 ^ 32 := by
      simpa [spineF, okF] using hw
    have hmod : (encVE es).length % 4294967296 = (encVE es).length :=
      Nat.mod_eq_of_lt (by have := hw'.2; omega)
    have hb : pre ++ encV (.vmap es) ++ post =
        pre ++ (u32_le (encVE es).length ++ (encVE es ++ post)) := by simp [encV, hmod]
    rw [hb]
    have hfuel : lengthVE es <
        (pre ++ (u32_le (encVE es).length ++ (encVE es ++ post))).length + 1 := by
      have h1 := lengthVE_le es
      simp [u32_le]
      omega
    have ihm := decCharMap es tk tv hs hw'.1
      ((pre ++ (u32_le (encVE es).length ++ (encVE es ++ post))).length + 1)
      (pre ++ u32_le (encVE es).length) post hfuel
      (by have := hw'.2; simp only [USIZE]; omega)
    have hb2 : (pre ++ u32_le (encVE es).length) ++ encVE es ++ post =
        pre ++ (u32_le (encVE es).length ++ (encVE es ++ post)) := by simp
    have hb3 : (pre ++ u32_le (encVE es).length).length = pre.length + 4 := by simp [u32_le]
    rw [hb2, hb3] at ihm
    simp only [deserialize]
    simp only [read_u32_at' pre (encVE es ++ post) (encVE es).length hw'.2]
    rw [ihm]
    simp [encV, u32_le_length]
    try omega
  | .vunitVariant i, S, hs, hw, pre, post => by
    cases S <;> simp [hasShape] at hs
    rename_i vars
    have hi : i ≤ 255 := by simpa [spineF, okF] using hw
    have him : i % 256 = i := Nat.mod_eq_of_lt (by omega)
    cases hvl : variantLookup vars i with
    | none => simp [hvl] at hs
    | some w =>
      cases w with
      | wnewtype t => simp [hvl] at hs
      | wtuple ts => simp [hvl] at hs
      | wstruct ts => simp [hvl] at hs
      | wunit =>
        have hb : pre ++ encV (.vunitVariant i) ++ post = pre ++ (u32_le 1 ++ i :: post) := by
          simp [encV, him]
        rw [hb]
        simp only [deserialize]
        simp only [read_u32_at' pre (i :: post) 1 (by norm_num)]
        simp only [read_byte_after_u32 pre post 1 i]
        simp only [variantDispatch_unit vars i i 1 (pre ++ (u32_le 1 ++ i :: post))
          (pre.length + 5) hvl]
        simp [encV, u32_le_length]
        try omega
  | .vnewtypeVariant i v, S, hs, hw, pre, post => by
    cases S <;> simp [hasShape] at hs
    rename_i vars
    have hw' : i ≤ 255 ∧ spineF true v = true := by simpa [spineF] using hw
    have him : i % 256 = i := Nat.mod_eq_of_lt (by omega)
    cases hvl : variantLookup vars i with
    | none => simp [hvl] at hs
    | some w =>
      cases w with
      | wunit => simp [hvl] at hs
      | wtuple ts => simp [hvl] at hs
      | wstruct ts => simp [hvl] at hs
      | wnewtype t =>
        simp only [hvl] at hs
        have hb : pre ++ encV (.vnewtypeVariant i v) ++ post =
            pre ++ (u32_le 0 ++ i :: (encV v ++ post)) := by simp [encV, him]
        rw [hb]
        have ih := decChar v t hs hw'.2 (pre ++ u32_le 0 ++ [i]) post
        have hb2 : (pre ++ u32_le 0 ++ [i]) ++ encV v ++ post =
            pre ++ (u32_le 0 ++ i :: (encV v ++ post)) := by simp
        have hb3 : (pre ++ u32_le 0 ++ [i]).length = pre.length + 5 := by simp [u32_le]
        rw [hb2, hb3] at ih
        simp only [deserialize]
        simp only [read_u32_at' pre (i :: (encV v ++ post)) 0 (by norm_num)]
        simp only [read_byte_after_u32 pre (encV v ++ post) 0 i]
        simp only [variantDispatch_newtype vars i i 0
          (pre ++ (u32_le 0 ++ i :: (encV v ++ post))) (pre.length + 5) t hvl]
        rw [ih]
        simp [encV, u32_le_length]
        try omega
  | .vtupleVariant i vs, S, hs, hw, pre, post => by
    cases S <;> simp [hasShape] at hs
    rename_i vars
    have hw' : (i ≤ 255 ∧ okFL true vs = true) ∧ (encVL vs).length + 1 < 2 ^ 32 := by
      simpa [spineF, okF] using hw
    have him : i % 256 = i := Nat.mod_eq_of_lt (by have := hw'.1.1; omega)
    have hmod : ((encVL vs).length + 1) % 4294967296 = (encVL vs).length + 1 :=
      Nat.mod_eq_of_lt (by have := hw'.2; omega)
    cases hvl : variantLookup vars i with
    | none => simp [hvl] at hs
    | some w =>
      cases w with
      | wunit => simp [hvl] at hs
      | wnewtype t => simp [hvl] at hs
      | wstruct ts => simp [hvl] at hs
      | wtuple ts =>
        simp only [hvl] at hs
        have hb : pre ++ encV (.vtupleVariant i vs) ++ post =
            pre ++ (u32_le ((encVL vs).length + 1) ++ i :: (encVL vs ++ post)) := by
          simp [encV, him, hmod]
        rw [hb]
        have ihl := decCharL vs ts hs hw'.1.2 1
          (pre ++ u32_le ((encVL vs).length + 1) ++ [i]) post
          (by have := hw'.2; simp only [USIZE]; omega)
        have hb2 : (pre ++ u32_le ((encVL vs).length + 1) ++ [i]) ++ encVL vs ++ post =
            pre ++ (u32_le ((encVL vs).length + 1) ++ i :: (encVL vs ++ post)) := by simp
        have hb3 : (pre ++ u32_le ((encVL vs).length + 1) ++ [i]).length = pre.length + 5 := by
          simp [u32_le]
        rw [hb2, hb3] at ihl
        simp only [deserialize]
        simp only [read_u32_at' pre (i :: (encVL vs ++ post)) ((encVL vs).length + 1) hw'.2]
        simp only [read_byte_after_u32 pre (encVL vs ++ post) ((encVL vs).length + 1) i]
        simp only [variantDispatch_tuple vars i i ((encVL vs).length + 1)
          (pre ++ (u32_le ((encVL vs).length + 1) ++ i :: (encVL vs ++ post)))
          (pre.length + 5) ts hvl]
        rw [ihl]
        simp [encV, u32_le_length]
        try omega
  | .vstructVariant i vs, S, hs, hw, pre, post => by
    cases S <;> simp [hasShape] at hs
    rename_i vars
    have hw' : (i ≤ 255 ∧ okFL true vs = true) ∧ (encVL vs).length + 1 < 2 ^ 32 := by
      simpa [spineF, okF] using hw
    have him : i % 256 = i := Nat.mod_eq_of_lt (by have := hw'.1.1; omega)
    have hmod : ((encVL vs).length + 1) % 4294967296 = (encVL vs).length + 1 :=
      Nat.mod_eq_of_lt (by have := hw'.2; omega)
    cases hvl : variantLookup vars i with
    | none => simp [hvl] at hs
    | some w =>
      cases w with
      | wunit => simp [hvl] at hs
      | wnewtype t => simp [hvl] at hs
      | wtuple ts => simp [hvl] at hs
      | wstruct ts =>
        simp only [hvl] at hs
        have hb : pre ++ encV (.vstructVariant i vs) ++ post =
            pre ++ (u32_le ((encVL vs).length + 1) ++ i :: (encVL vs ++ post)) := by
          simp [encV, him, hmod]
        rw [hb]
        have ihl := decCharL vs ts hs hw'.1.2 1
          (pre ++ u32_le ((encVL vs).length + 1) ++ [i]) post
          (by have := hw'.2; simp only [USIZE]; omega)
        have hb2 : (pre ++ u32_le ((encVL vs).length + 1) ++ [i]) ++ encVL vs ++ post =
            pre ++ (u32_le ((encVL vs).length + 1) ++ i :: (encVL vs ++ post)) := by simp
        have hb3 : (pre ++ u32_le ((encVL vs).length + 1) ++ [i]).length = pre.length + 5 := by
          simp [u32_le]
        rw [hb2, hb3] at ihl
        simp only [deserialize]
        simp only [read_u32_at' pre (i :: (encVL vs ++ post)) ((encVL vs).length + 1) hw'.2]
        simp only [read_byte_after_u32 pre (encVL vs ++ post) ((encVL vs).length + 1) i]
        simp only [variantDispatch_struct vars i i ((encVL vs).length + 1)
          (pre ++ (u32_le ((encVL vs).length + 1) ++ i :: (encVL vs ++ post)))
          (pre.length + 5) ts hvl]
        rw [ihl]
        simp [encV, u32_le_length]
        try omega

/-- Fixed-arity field loop characterization: with any slack `k` left on top of
the fields' exact byte length (0 for tuples/structs, 1 for variants, whose
budget still counts the index byte), the loop decodes exactly the fields. -/
theorem decCharL : ∀ (vs : ValueList) (ts : ShapeList), hasShapeL vs ts = true →
    okFL true vs = true → ∀ (k : Nat) (pre post : List Nat),
    (encVL vs).length + k < USIZE →
    seqFixed ts ((encVL vs).length + k) (pre ++ encVL vs ++ post) pre.length =
      .ok (vs, pre.length + (encVL vs).length)
  | .nil, ts, hs, _, k, pre, post, _ => by
    cases ts <;> simp [hasShapeL] at hs
    simp [seqFixed, encVL]
  | .cons v vs, ts, hs, hw, k, pre, post, hUS => by
    cases ts <;> simp [hasShapeL] at hs
    rename_i t ts'
    have hw' : okF true v = true ∧ okFL true vs = true := by simpa [okFL] using hw
    have hpos := encV_pos v
    have ih1 := decChar v t hs.1 (okF_spineF true v hw'.1) pre (encVL vs ++ post)
    simp only [List.append_assoc] at ih1
    have ih2 := decCharL vs ts' hs.2 hw'.2 k (pre ++ encV v) post
      (by simp only [encVL, List.length_append] at hUS; omega)
    have hb2 : (pre ++ encV v) ++ encVL vs ++ post = pre ++ (encV v ++ (encVL vs ++ post)) := by
      simp
    have hb3 : (pre ++ encV v).length = pre.length + (encV v).length := by simp
    rw [hb2, hb3] at ih2
    have hsub : usize_wrap_sub ((encV v).length + (encVL vs).length + k)
        (encV v).length = (encVL vs).length + k := by
      simp only [encVL, List.length_append] at hUS
      rw [wrap_sub_exact _ _ (by omega) hUS]
      omega
    have hz : ¬ ((encVL (.cons v vs)).length + k = 0) := by
      simp only [encVL, List.length_append]
      omega
    have hbuf : pre ++ encVL (.cons v vs) ++ post = pre ++ (encV v ++ (encVL vs ++ post)) := by
      simp [encVL]
    rw [hbuf]
    simp only [seqFixed]
    rw [if_neg hz, ih1]
    simp [hsub, ih2, encVL, Nat.add_sub_cancel_left]
    try omega

/-- Draining-loop characterization for sequences: with the budget equal to the
elements' exact byte length and enough fuel, the loop decodes exactly the
elements and stops with the budget at 0. -/
theorem decCharSeq : ∀ (vs : ValueList) (t : Shape), hasShapeSeq vs t = true →
    okFL true vs = true → ∀ (fuel : Nat) (pre post : List Nat), lengthVL vs < fuel →
    (encVL vs).length < USIZE →
    seqDrain (fun b q => deserialize t b q) fuel (encVL vs).length
      (pre ++ encVL vs ++ post) pre.length = .ok (vs, pre.length + (encVL vs).length)
  | .nil, t, hs, hw, fuel, pre, post, hfuel, hUS => by
    cases fuel with
    | zero => simp [lengthVL] at hfuel
    | succ f => simp [seqDrain, encVL]
  | .cons v vs, t, hs, hw, fuel, pre, post, hfuel, hUS => by
    cases fuel with
    | zero => simp [lengthVL] at hfuel
    | succ f =>
      have hs' : hasShape v t = true ∧ hasShapeSeq vs t = true := by
        simpa [hasShapeSeq] using hs
      have hw' : okF true v = true ∧ okFL true vs = true := by simpa [okFL] using hw
      have hpos := encV_pos v
      have ih1 := decChar v t hs'.1 (okF_spineF true v hw'.1) pre (encVL vs ++ post)
      simp only [List.append_assoc] at ih1
      have ih2 := decCharSeq vs t hs'.2 hw'.2 f (pre ++ encV v) post
        (by simp only [lengthVL] at hfuel; omega)
        (by simp only [encVL, List.length_append] at hUS; omega)
      have hb2 : (pre ++ encV v) ++ encVL vs ++ post =
          pre ++ (encV v ++ (encVL vs ++ post)) := by simp
      have hb3 : (pre ++ encV v).length = pre.length + (encV v).length := by simp
      rw [hb2, hb3] at ih2
      have hsub : usize_wrap_sub ((encV v).length + (encVL vs).length)
          (encV v).length = (encVL vs).length := by
        simp only [encVL, List.length_append] at hUS
        rw [wrap_sub_exact _ _ (by omega) hUS]
        omega
      have hz : ¬ ((encVL (.cons v vs)).length = 0) := by
        simp only [encVL, List.length_append]
        omega
      have hbuf : pre ++ encVL (.cons v vs) ++ post =
          pre ++ (encV v ++ (encVL vs ++ post)) := by simp [encVL]
      rw [hbuf]
      simp only [seqDrain]
      rw [if_neg hz, ih1]
      simp [hsub, ih2, encVL, Nat.add_sub_cancel_left]
      try omega

/-- Draining-loop characterization for maps: entries decode key then value,
each subtracting its own consumed delta, until the budget is exactly 0. -/
theorem decCharMap : ∀ (es : EntryList) (tk tv : Shape), hasShapeE es tk tv = true →
    okFE true es = true → ∀ (fuel : Nat) (pre post : List Nat), lengthVE es < fuel →
    (encVE es).length < USIZE →
    mapDrain (fun b q => deserialize tk b q) (fun b q => deserialize tv b q) fuel
      (encVE es).length (pre ++ encVE es ++ post) pre.length =
      .ok (es, pre.length + (encVE es).length)
  | .nil, tk, tv, hs, hw, fuel, pre, post, hfuel, hUS => by
    cases fuel with
    | zero => simp [lengthVE] at hfuel
    | succ f => simp [mapDrain, encVE]
  | .cons kv vv es, tk, tv, hs, hw, fuel, pre, post, hfuel, hUS => by
    cases fuel with
    | zero => simp [lengthVE] at hfuel
    | succ f =>
      have hs' : (hasShape kv tk = true ∧ hasShape vv tv = true) ∧
          hasShapeE es tk tv = true := by
        simpa [hasShapeE, Bool.and_eq_true] using hs
      have hw' : (okF true kv = true ∧ okF true vv = true) ∧ okFE true es = true := by
        simpa [okFE, Bool.and_eq_true] using hw
      have hposk := encV_pos kv
      have hposv := encV_pos vv
      have ih1 := decChar kv tk hs'.1.1 (okF_spineF true kv hw'.1.1) pre
        (encV vv ++ (encVE es ++ post))
      simp only [List.append_assoc] at ih1
      have ih2 := decChar vv tv hs'.1.2 (okF_spineF true vv hw'.1.2) (pre ++ encV kv)
        (encVE es ++ post)
      have hb2 : (pre ++ encV kv) ++ encV vv ++ (encVE es ++ post) =
          pre ++ (encV kv ++ (encV vv ++ (encVE es ++ post))) := by simp
      have hb3 : (pre ++ encV kv).length = pre.length + (encV kv).length := by simp
      rw [hb2, hb3] at ih2
      have ih3 := decCharMap es tk tv hs'.2 hw'.2 f (pre ++ encV kv ++ encV vv) post
        (by simp only [lengthVE] at hfuel; omega)
        (by simp only [encVE, List.length_append] at hUS; omega)
      have hb4 : (pre ++ encV kv ++ encV vv) ++ encVE es ++ post =
          pre ++ (encV kv ++ (encV vv ++ (encVE es ++ post))) := by simp
      have hb5 : (pre ++ encV kv ++ encV vv).length =
          pre.length + (encV kv).length + (encV vv).length := by
        simp [Nat.add_assoc]
      rw [hb4, hb5] at ih3
      have hsub1 : usize_wrap_sub ((encV kv).length + ((encV vv).length + (encVE es).length))
          (encV kv).length = (encV vv).length + (encVE es).length := by
        simp only [encVE, List.length_append] at hUS
        rw [wrap_sub_exact _ _ (by omega) (by omega)]
        omega
      have hsub2 : usize_wrap_sub ((encV vv).length + (encVE es).length)
          (encV vv).length = (encVE es).length := by
        simp only [encVE, List.length_append] at hUS
        rw [wrap_sub_exact _ _ (by omega) (by omega)]
        omega
      have hz : ¬ ((encVE (.cons kv vv es)).length = 0) := by
        simp only [encVE, List.length_append]
        omega
      have hbuf : pre ++ encVE (.cons kv vv es) ++ post =
          pre ++ (encV kv ++ (encV vv ++ (encVE es ++ post))) := by simp [encVE]
      rw [hbuf]
      simp only [mapDrain]
      rw [if_neg hz, ih1]
      simp [hsub1, ih2, hsub2, ih3, encVE, Nat.add_sub_cancel_left]
      try omega
end

/-! Cursor bounds: every successful primitive read, and hence every successful
decode, leaves the cursor within the buffer. -/

theorem read_bytes_le (buffer : List Nat) (pos len : Nat) (bs : List Nat) (p : Nat)
    (h : read_bytes buffer pos len = .ok (bs, p)) : p ≤ buffer.length := by
  simp only [read_bytes] at h
  by_cases hc : buffer.length < pos + len
  · simp [hc] at h
  · simp [hc] at h
    omega

theorem read_byte_le (buffer : List Nat) (pos : Nat) (b p : Nat)
    (h : read_byte buffer pos = .ok (b, p)) : p ≤ buffer.length := by
  simp only [read_byte] at h
  cases hr : read_bytes buffer pos 1 with
  | error e => rw [hr] at h; cases h
  | ok bp =>
    obtain ⟨bs, q⟩ := bp
    rw [hr] at h
    have hb := read_bytes_le buffer pos 1 bs q hr
    cases h
    exact hb

theorem read_u32_le (buffer : List Nat) (pos : Nat) (n p : Nat)
    (h : read_u32 buffer pos = .ok (n, p)) : p ≤ buffer.length := by
  simp only [read_u32] at h
  cases hr : read_bytes buffer pos 4 with
  | error e => rw [hr] at h; cases h
  | ok bp =>
    obtain ⟨bs, q⟩ := bp
    rw [hr] at h
    have hb := read_bytes_le buffer pos 4 bs q hr
    cases h
    exact hb

theorem seqDrain_le (dec : List Nat → Nat → Except Error (Value × Nat)) (buffer : List Nat)
    (hdec : ∀ q v p, q ≤ buffer.length → dec buffer q = .ok (v, p) → p ≤ buffer.length) :
    ∀ (fuel r pos : Nat) (vs : ValueList) (p' : Nat), pos ≤ buffer.length →
    seqDrain dec fuel r buffer pos = .ok (vs, p') → p' ≤ buffer.length := by
  intro fuel
  induction fuel with
  | zero => intro r pos vs p' _ h; cases h
  | succ f ih =>
    intro r pos vs p' hpos h
    simp only [seqDrain] at h
    split at h
    · cases h
      exact hpos
    · split at h
      · cases h
      · rename_i w q heq
        split at h
        · cases h
        · rename_i ws p2 heq2
          have hres := ih _ q ws p2 (hdec pos w q hpos heq) heq2
          cases h
          exact hres

theorem mapDrain_le (decK decV : List Nat → Nat → Except Error (Value × Nat))
    (buffer : List Nat)
    (hdecK : ∀ q v p, q ≤ buffer.length → decK buffer q = .ok (v, p) → p ≤ buffer.length)
    (hdecV : ∀ q v p, q ≤ buffer.length → decV buffer q = .ok (v, p) → p ≤ buffer.length) :
    ∀ (fuel r pos : Nat) (es : EntryList) (p' : Nat), pos ≤ buffer.length →
    mapDrain decK decV fuel r buffer pos = .ok (es, p') → p' ≤ buffer.length := by
  intro fuel
  induction fuel with
  | zero => intro r pos es p' _ h; cases h
  | succ f ih =>
    intro r pos es p' hpos h
    simp only [mapDrain] at h
    split at h
    · cases h
      exact hpos
    · split at h
      · cases h
      · rename_i kw p1 heq1
        split at h
        · cases h
        · rename_i vw p2 heq2
          split at h
          · cases h
          · rename_i ws p3 heq3
            have hres := ih _ p2 ws p3 (hdecV p1 vw p2 (hdecK pos kw p1 hpos heq1) heq2) heq3
            cases h
            exact hres

mutual
/-- A successful decode leaves the cursor within the buffer, for any input and
any shape, provided it started within the buffer: the decoder cannot end up
past the end, because every advance goes through the bound check of
`read_bytes`. -/
theorem deserialize_le : ∀ (S : Shape) (buffer : List Nat) (pos : Nat) (v : Value) (p' : Nat),
    pos ≤ buffer.length → deserialize S buffer pos = .ok (v, p') → p' ≤ buffer.length
  | .sbool, _, _, _, _, _, h => by cases h
  | .si32, _, _, _, _, _, h => by cases h
  | .su64, _, _, _, _, _, h => by cases h
  | .sf64, _, _, _, _, _, h => by cases h
  | .schar, _, _, _, _, _, h => by cases h
  | .sstr, _, _, _, _, _, h => by cases h
  | .sbytes, _, _, _, _, _, h => by cases h
  | .sany, _, _, _, _, _, h => by cases h
  | .signoredAny, _, _, _, _, _, h => by cases h
  | .su8, buffer, pos, v, p', hpos, h => by
    simp only [deserialize] at h
    split at h
    · rename_i b p heq
      have hres := read_byte_le buffer pos b p heq
      cases h
      exact hres
    · cases h
  | .su32, buffer, pos, v, p', hpos, h => by
    simp only [deserialize] at h
    split at h
    · rename_i n p heq
      have hres := read_u32_le buffer pos n p heq
      cases h
      exact hres
    · cases h
  | .soption t, buffer, pos, v, p', hpos, h => by
    simp only [deserialize] at h
    split at h
    · cases h
    · rename_i b p heq
      have hp := read_byte_le buffer pos b p heq
      split at h
      · cases h
        exact hp
      · split at h
        · split at h
          · rename_i w q heq2
            have hres := deserialize_le t buffer p w q hp heq2
            cases h
            exact hres
          · cases h
        · cases h
  | .sunit, buffer, pos, v, p', hpos, h => by
    simp only [deserialize] at h
    split at h
    · rename_i b p heq
      have hp := read_byte_le buffer pos b p heq
      split at h
      · cases h
        exact hp
      · cases h
    · cases h
  | .sunitStruct, buffer, pos, v, p', hpos, h => by
    simp only [deserialize] at h
    split at h
    · rename_i b p heq
      have hp := read_byte_le buffer pos b p heq
      split at h
      · cases h
        exact hp
      · cases h
    · cases h
  | .snewtypeStruct t, buffer, pos, v, p', hpos, h => by
    simp only [deserialize] at h
    split at h
    · rename_i w q heq
      have hres := deserialize_le t buffer pos w q hpos heq
      cases h
      exact hres
    · cases h
  | .sseq t, buffer, pos, v, p', hpos, h => by
    simp only [deserialize] at h
    split at h
    · cases h
    · rename_i len p heq
      have hp := read_u32_le buffer pos len p heq
      split at h
      · rename_i ws q heq2
        have hres := seqDrain_le (fun b q => deserialize t b q) buffer
          (fun q w p2 hq hok => deserialize_le t buffer q w p2 hq hok)
          (buffer.length + 1) len p ws q hp heq2
        cases h
        exact hres
      · cases h
  | .stuple ts, buffer, pos, v, p', hpos, h => by
    simp only [deserialize] at h
    split at h
    · cases h
    · rename_i len p heq
      have hp := read_u32_le buffer pos len p heq
      split at h
      · rename_i ws q heq2
        have hres := seqFixed_le ts len buffer p ws q hp heq2
        cases h
        exact hres
      · cases h
  | .stupleStruct ts, buffer, pos, v, p', hpos, h => by
    simp only [deserialize] at h
    split at h
    · cases h
    · rename_i len p heq
      have hp := read_u32_le buffer pos len p heq
      split at h
      · rename_i ws q heq2
        have hres := seqFixed_le ts len buffer p ws q hp heq2
        cases h
        exact hres
      · cases h
  | .sstruct ts, buffer, pos, v, p', hpos, h => by
    simp only [deserialize] at h
    split at h
    · cases h
    · rename_i len p heq
      have hp := read_u32_le buffer pos len p heq
      split at h
      · rename_i ws q heq2
        have hres := seqFixed_le ts len buffer p ws q hp heq2
        cases h
        exact hres
      · cases h
  | .smap tk tv, buffer, pos, v, p', hpos, h => by
    simp only [deserialize] at h
    split at h
    · cases h
    · rename_i len p heq
      have hp := read_u32_le buffer pos len p heq
      split at h
      · rename_i ws q heq2
        have hres := mapDrain_le (fun b q => deserialize tk b q) (fun b q => deserialize tv b q)
          buffer
          (fun q w p2 hq hok => deserialize_le tk buffer q w p2 hq hok)
          (fun q w p2 hq hok => deserialize_le tv buffer q w p2 hq hok)
          (buffer.length + 1) len p ws q hp heq2
        cases h
        exact hres
      · cases h
  | .senum vars, buffer, pos, v, p', hpos, h => by
    simp only [deserialize] at h
    split at h
    · cases h
    · rename_i remaining p1 heq1
      split at h
      · cases h
      · rename_i idx p2 heq2
        have hp2 := read_byte_le buffer p1 idx p2 heq2
        exact variantDispatch_le vars idx idx remaining buffer p2 v p' hp2 h

/-- Cursor bound for the fixed-arity field loop. -/
theorem seqFixed_le : ∀ (ts : ShapeList) (r : Nat) (buffer : List Nat) (pos : Nat)
    (vs : ValueList) (p' : Nat), pos ≤ buffer.length →
    seqFixed ts r buffer pos = .ok (vs, p') → p' ≤ buffer.length
  | .nil, r, buffer, pos, vs, p', hpos, h => by
    simp only [seqFixed] at h
    cases h
    exact hpos
  | .cons t ts, r, buffer, pos, vs, p', hpos, h => by
    simp only [seqFixed] at h
    split at h
    · cases h
    · split at h
      · cases h
      · rename_i w q heq
        have hq := deserialize_le t buffer pos w q hpos heq
        split at h
        · cases h
        · rename_i ws p2 heq2
          have hres := seqFixed_le ts _ buffer q ws p2 hq heq2
          cases h
          exact hres

/-- Cursor bound for the variant dispatch. -/
theorem variantDispatch_le : ∀ (vars : VariantList) (n idx remaining : Nat)
    (buffer : List Nat) (pos : Nat) (v : Value) (p' : Nat), pos ≤ buffer.length →
    variantDispatch vars n idx remaining buffer pos = .ok (v, p') → p' ≤ buffer.length
  | .nil, n, idx, remaining, buffer, pos, v, p', hpos, h => by cases h
  | .cons w ws, 0, idx, remaining, buffer, pos, v, p', hpos, h => by
    cases w with
    | wunit =>
      simp only [variantDispatch] at h
      cases h
      exact hpos
    | wnewtype t =>
      simp only [variantDispatch] at h
      split at h
      · rename_i w2 q heq
        have hres := deserialize_le t buffer pos w2 q hpos heq
        cases h
        exact hres
      · cases h
    | wtuple ts =>
      simp only [variantDispatch] at h
      split at h
      · rename_i ws2 q heq
        have hres := seqFixed_le ts remaining buffer pos ws2 q hpos heq
        cases h
        exact hres
      · cases h
    | wstruct ts =>
      simp only [variantDispatch] at h
      split at h
      · rename_i ws2 q heq
        have hres := seqFixed_le ts remaining buffer pos ws2 q hpos heq
        cases h
        exact hres
      · cases h
  | .cons w ws, n + 1, idx, remaining, buffer, pos, v, p', hpos, h => by
    simp only [variantDispatch] at h
    exact variantDispatch_le ws n idx remaining buffer pos v p' hpos h
end

/-! Claim theorems. -/

/-- Claim C1, counterexample: the round-trip law fails as stated. The encoder
writes `true` as the single byte 1, but `deserialize_bool` is unimplemented,
so decoding the encoder's own output at shape bool fails instead of returning
`Ok(true)`. (A second, independent failure class: a newtype variant nested in
a length-prefixed container skips its backpatch and corrupts the enclosing
prefix, e.g. the 1-tuple around `NewTypeVariant(7u8)`.) -/
theorem C1_cex :
    (to_bytes (.vbool true)).bind (fun b => from_bytes .sbool b) = .error .Unimplemented ∧
    to_bytes (.vtuple (.cons (.vnewtypeVariant 0 (.vu8 7)) .nil)) =
      .ok [0, 0, 0, 0, 2, 0, 0, 0, 0, 7] ∧
    (to_bytes (.vtuple (.cons (.vnewtypeVariant 0 (.vu8 7)) .nil))).bind
      (fun b => from_bytes (.stuple (.cons (.senum (.cons (.wnewtype .su8) .nil)) .nil)) b) =
      .error (.Custom ("invalid length")) :=
  ⟨rfl, rfl, rfl⟩

/-- Claim C1 (amended): for every legal value of a supported shape that
contains no bool (its decode is unimplemented) and no newtype variant beneath
a length-prefixed container (its missing backpatch corrupts the enclosing
prefix), decoding the bytes produced by `to_bytes` at the value's shape
returns exactly the value. `hasShape` is the value/shape typing, `spineF true`
the well-formedness predicate carving out that fragment (scalar ranges, no
bool, variant indices at most 255, length words below `2 ^ 32`, newtype
variants only along the outermost spine). -/
theorem C1_round_trip (v : Value) (S : Shape) (h1 : hasShape v S = true)
    (h2 : spineF true v = true) :
    (to_bytes v).bind (fun b => from_bytes S b) = .ok v := by
  rw [to_bytes_char v (spineF_mono v h2)]
  have hd := decChar v S h1 h2 [] []
  simp only [List.nil_append, List.append_nil, List.length_nil, Nat.zero_add] at hd
  simp [Except.bind, from_bytes, hd]

/-- Witness for C1: the two-field struct scenario of the spec,
`{a: u8 = 9, b: u32 = 300}`, round-trips. -/
theorem C1_round_trip_witness :
    hasShape (.vstruct (.cons (.vu8 9) (.cons (.vu32 300) .nil)))
      (.sstruct (.cons .su8 (.cons .su32 .nil))) = true ∧
    spineF true (.vstruct (.cons (.vu8 9) (.cons (.vu32 300) .nil))) = true ∧
    (to_bytes (.vstruct (.cons (.vu8 9) (.cons (.vu32 300) .nil)))).bind
      (fun b => from_bytes (.sstruct (.cons .su8 (.cons .su32 .nil))) b) =
      .ok (.vstruct (.cons (.vu8 9) (.cons (.vu32 300) .nil))) :=
  ⟨rfl, rfl,
    C1_round_trip (.vstruct (.cons (.vu8 9) (.cons (.vu32 300) .nil)))
      (.sstruct (.cons .su8 (.cons .su32 .nil))) rfl rfl⟩

/-- Claim C2, counterexample: an element that consumes more bytes than the
remaining budget does not produce a malformed-data error. Here the tuple's
length word says the budget is 1 byte, the single u32 element consumes 4
bytes (cursor 4 to 8), yet the decode succeeds; the budget is updated by
wrapping subtraction and the loop does not end with budget 0. -/
theorem C2_cex :
    read_u32 [1, 0, 0, 0, 7, 0, 0, 0] 0 = .ok (1, 4) ∧
    deserialize .su32 [1, 0, 0, 0, 7, 0, 0, 0] 4 = .ok (.vu32 7, 8) ∧
    deserialize (.stuple (.cons .su32 .nil)) [1, 0, 0, 0, 7, 0, 0, 0] 0 =
      .ok (.vtuple (.cons (.vu32 7) .nil), 8) :=
  ⟨rfl, rfl, rfl⟩

/-- Claim C2 (amended): the container element loop checks only whether the
remaining budget is exactly 0 before each element; after a successful element
decode it subtracts the consumed delta with wrapping 64-bit `usize`
subtraction and performs no zero-delta or over-consumption check, so an
element consuming more than the budget wraps the budget instead of raising a
malformed-data error (the draining and map loops update identically). -/
theorem C2_step (t : Shape) (ts : ShapeList) (r : Nat) (buffer : List Nat) (pos : Nat)
    (v : Value) (p' : Nat) (hr : ¬ r = 0) (hd : deserialize t buffer pos = .ok (v, p')) :
    seqFixed (.cons t ts) r buffer pos =
      (match seqFixed ts (usize_wrap_sub r (p' - pos)) buffer p' with
       | .error e => .error e
       | .ok (vs, p) => .ok (.cons v vs, p)) := by
  simp only [seqFixed]
  rw [if_neg hr, hd]

/-- Witness for C2: one step of the field loop on a concrete buffer. -/
theorem C2_step_witness :
    ¬ (1 : Nat) = 0 ∧ deserialize .su32 [7, 0, 0, 0] 0 = .ok (.vu32 7, 4) ∧
    seqFixed (.cons .su32 .nil) 1 [7, 0, 0, 0] 0 =
      (match seqFixed .nil (usize_wrap_sub 1 (4 - 0)) [7, 0, 0, 0] 4 with
       | .error e => .error e
       | .ok (vs, p) => .ok (.cons (.vu32 7) vs, p)) :=
  ⟨by decide, rfl, C2_step .su32 .nil 1 [7, 0, 0, 0] 0 (.vu32 7) 4 (by decide) rfl⟩

/-- Claim C3, counterexample: decoding a boolean does not read 1 byte and
return the value; `deserialize_bool` fails with the unsupported-type error
even on a well-formed 1-byte input. -/
theorem C3_cex : deserialize .sbool [1] 0 = .error .Unimplemented := rfl

/-- Claim C3 (amended): decoding a boolean always fails with the
UnsupportedType error (`deserialize_bool` is unimplemented), for every buffer
and cursor — even though the encoder does write booleans as a single byte
0 or 1, making the scalar support asymmetric. -/
theorem C3_bool :
    (∀ (buffer : List Nat) (pos : Nat), deserialize .sbool buffer pos = .error .Unimplemented) ∧
    (∀ (b : Bool) (st : SerState),
      serialize (.vbool b) st = (⟨st.buffer ++ [if b then 1 else 0], st.offsets⟩, none)) :=
  ⟨fun _ _ => rfl, fun _ _ => rfl⟩

/-- Claim C4, counterexample: the newtype-variant length word is never
backpatched. Encoding `NewTypeVariant(7u8)` with index 3 leaves the 4-byte
word at the placeholder 0 although 2 payload bytes (index byte and u8) follow
it, and leaves the reserved offset un-popped on the offsets stack. -/
theorem C4_cex :
    to_bytes (.vnewtypeVariant 3 (.vu8 7)) = .ok [0, 0, 0, 0, 3, 7] ∧
    from_le4 [0, 0, 0, 0] = 0 ∧ (List.drop 4 [0, 0, 0, 0, 3, 7]).length = 2 ∧
    (serialize (.vnewtypeVariant 3 (.vu8 7)) ⟨[], []⟩).1.offsets = [0] :=
  ⟨rfl, rfl, rfl, rfl⟩

/-- Claim C4 (amended): for every successfully encoded container other than a
newtype variant — sequence, tuple, tuple struct, struct, map, unit/tuple/
struct variant — the backpatched 4-byte little-endian length word equals
exactly the byte length of the payload that follows it, at every nesting
depth, with the pending-offset stack restored (popped in LIFO order); this is
the characterization `serialize v st = (st.buffer ++ encV v, st.offsets)` on
the newtype-variant-free fragment, where `encV` places the exact payload
length in every container's length word. Newtype variants skip
`end_bytelen_encoding`: their word stays 0 and their offset is never popped. -/
theorem C4_bytelen :
    (∀ (v : Value) (st : SerState), okF false v = true →
      serialize v st = (⟨st.buffer ++ encV v, st.offsets⟩, none)) ∧
    (∀ vs : ValueList, okFL false vs = true → (encVL vs).length < 2 ^ 32 →
      to_bytes (.vtuple vs) = .ok (u32_le (encVL vs).length ++ encVL vs) ∧
      read_u32 (u32_le (encVL vs).length ++ encVL vs) 0 = .ok ((encVL vs).length, 4)) := by
  refine ⟨fun v st h => serChar v h st, fun vs h hlen => ⟨?_, ?_⟩⟩
  · have hok : okF false (.vtuple vs) = true := by simp [okF, h]
    have := to_bytes_char (.vtuple vs) (okF_spineF false (.vtuple vs) hok)
    rw [this]
    simp [encV, Nat.mod_eq_of_lt (show (encVL vs).length < 4294967296 by omega)]
  · have := read_u32_at' [] (encVL vs) (encVL vs).length hlen
    simpa using this

/-- Witness for C4: a one-element tuple gets the exact length word 1. -/
theorem C4_bytelen_witness :
    okF false (.vu8 7) = true ∧ okFL false (.cons (.vu8 7) .nil) = true ∧
    (encVL (.cons (.vu8 7) .nil)).length < 2 ^ 32 ∧
    serialize (.vu8 7) ⟨[], []⟩ = (⟨[] ++ encV (.vu8 7), []⟩, none) ∧
    (to_bytes (.vtuple (.cons (.vu8 7) .nil)) =
      .ok (u32_le (encVL (.cons (.vu8 7) .nil)).length ++ encVL (.cons (.vu8 7) .nil)) ∧
      read_u32 (u32_le (encVL (.cons (.vu8 7) .nil)).length ++ encVL (.cons (.vu8 7) .nil)) 0 =
        .ok ((encVL (.cons (.vu8 7) .nil)).length, 4)) :=
  ⟨rfl, rfl, by decide,
    C4_bytelen.1 (.vu8 7) ⟨[], []⟩ rfl,
    C4_bytelen.2 (.cons (.vu8 7) .nil) rfl (by decide)⟩

/-- Claim C5, counterexample: an encode failure does not discard the
partially written buffer on the serializer instance. A tuple whose element is
a string fails with UnsupportedType after the 4 placeholder bytes were
already written; a later encode of `7u8` on the same instance observes them,
returning the 5-byte buffer `[0,0,0,0,7]` instead of `[7]` as on a fresh
instance. (The free `to_bytes` function uses a fresh instance per call, so
its callers never see this.) -/
theorem C5_cex :
    (ser_to_bytes ⟨[], []⟩ (.vtuple (.cons (.vstr []) .nil))).1 = .error .Unimplemented ∧
    (ser_to_bytes (ser_to_bytes ⟨[], []⟩ (.vtuple (.cons (.vstr []) .nil))).2 (.vu8 7)).1 =
      .ok [0, 0, 0, 0, 7] ∧
    (ser_to_bytes ⟨[], []⟩ (.vu8 7)).1 = .ok [7] :=
  ⟨rfl, rfl, rfl⟩

/-- Claim C5 (amended): encoding or decoding any unsupported scalar shape
(signed integers, wide integers, floating point, char, text, raw bytes,
any/ignored) fails with the UnsupportedType error, and the failing scalar
operation itself performs no buffer mutation (the serializer state is
returned untouched, the decoder reads nothing). Partial writes made by an
enclosing container before the failure are, however, not discarded on the
instance (see the counterexample); only the free `to_bytes` function, which
uses a fresh instance, isolates callers from them. -/
theorem C5_unsupported :
    (∀ (n : Int) (st : SerState), serialize (.vi32 n) st = (st, some .Unimplemented)) ∧
    (∀ (n : Nat) (st : SerState), serialize (.vu64 n) st = (st, some .Unimplemented)) ∧
    (∀ (n : Nat) (st : SerState), serialize (.vf64 n) st = (st, some .Unimplemented)) ∧
    (∀ (n : Nat) (st : SerState), serialize (.vchar n) st = (st, some .Unimplemented)) ∧
    (∀ (s : List Nat) (st : SerState), serialize (.vstr s) st = (st, some .Unimplemented)) ∧
    (∀ (s : List Nat) (st : SerState), serialize (.vbytes s) st = (st, some .Unimplemented)) ∧
    (∀ (buffer : List Nat) (pos : Nat), deserialize .si32 buffer pos = .error .Unimplemented) ∧
    (∀ (buffer : List Nat) (pos : Nat), deserialize .su64 buffer pos = .error .Unimplemented) ∧
    (∀ (buffer : List Nat) (pos : Nat), deserialize .sf64 buffer pos = .error .Unimplemented) ∧
    (∀ (buffer : List Nat) (pos : Nat), deserialize .schar buffer pos = .error .Unimplemented) ∧
    (∀ (buffer : List Nat) (pos : Nat), deserialize .sstr buffer pos = .error .Unimplemented) ∧
    (∀ (buffer : List Nat) (pos : Nat), deserialize .sbytes buffer pos = .error .Unimplemented) ∧
    (∀ (buffer : List Nat) (pos : Nat), deserialize .sany buffer pos = .error .Unimplemented) ∧
    (∀ (buffer : List Nat) (pos : Nat),
      deserialize .signoredAny buffer pos = .error .Unimplemented) :=
  ⟨fun _ _ => rfl, fun _ _ => rfl, fun _ _ => rfl, fun _ _ => rfl, fun _ _ => rfl,
    fun _ _ => rfl, fun _ _ => rfl, fun _ _ => rfl, fun _ _ => rfl, fun _ _ => rfl,
    fun _ _ => rfl, fun _ _ => rfl, fun _ _ => rfl, fun _ _ => rfl⟩

/-- Claim C6: encoding any variant kind with index 256 or greater fails with
InvalidData (never truncated to a byte); an index of at most 255 is written
as one byte (shown for the unit variant, whose full image is the length word
1 followed by the index byte); and decoding a variant-index byte that denotes
none of the statically known variants of the requested enum fails with a
malformed-data error. The decode-side membership check lives in the
serde-derived variant-identifier `Deserialize`, modelled from the spec in
`variantDispatch`. -/
theorem C6_variant_index :
    (∀ (i : Nat) (st : SerState), 256 ≤ i →
      (serialize (.vunitVariant i) st).2 = some .InvalidData) ∧
    (∀ (i : Nat) (v : Value) (st : SerState), 256 ≤ i →
      (serialize (.vnewtypeVariant i v) st).2 = some .InvalidData) ∧
    (∀ (i : Nat) (vs : ValueList) (st : SerState), 256 ≤ i →
      (serialize (.vtupleVariant i vs) st).2 = some .InvalidData) ∧
    (∀ (i : Nat) (vs : ValueList) (st : SerState), 256 ≤ i →
      (serialize (.vstructVariant i vs) st).2 = some .InvalidData) ∧
    (∀ (i : Nat) (st : SerState), i ≤ 255 →
      serialize (.vunitVariant i) st = (⟨st.buffer ++ u32_le 1 ++ [i], st.offsets⟩, none)) ∧
    (∀ (vars : VariantList) (buffer : List Nat) (pos L p1 idx p2 : Nat),
      read_u32 buffer pos = .ok (L, p1) → read_byte buffer p1 = .ok (idx, p2) →
      variantLookup vars idx = none →
      deserialize (.senum vars) buffer pos = .error (.Custom ("invalid variant index"))) := by
  refine ⟨?_, ?_, ?_, ?_, ?_, ?_⟩
  · intro i st hi
    simp only [serialize]
    rw [if_neg (by omega)]
  · intro i v st hi
    simp only [serialize]
    rw [if_neg (by omega)]
  · intro i vs st hi
    simp only [serialize]
    rw [if_neg (by omega)]
  · intro i vs st hi
    simp only [serialize]
    rw [if_neg (by omega)]
  · intro i st hi
    have hok : okF false (.vunitVariant i) = true := by
      simp only [okF, decide_eq_true_eq]
      omega
    have hc := serChar (.vunitVariant i) hok st
    rw [hc]
    simp [encV, Nat.mod_eq_of_lt (show i < 256 by omega)]
  · intro vars buffer pos L p1 idx p2 h1 h2 h3
    simp only [deserialize, h1, h2]
    exact variantDispatch_none vars idx idx L buffer p2 h3

/-- Witness for C6: index 256 is rejected on all four variant kinds, index 4
is written as one byte after the length word, and decoding index 5 against a
single-variant enum fails. -/
theorem C6_variant_index_witness :
    (serialize (.vunitVariant 256) ⟨[], []⟩).2 = some .InvalidData ∧
    (serialize (.vnewtypeVariant 256 .vunit) ⟨[], []⟩).2 = some .InvalidData ∧
    (serialize (.vtupleVariant 256 .nil) ⟨[], []⟩).2 = some .InvalidData ∧
    (serialize (.vstructVariant 256 .nil) ⟨[], []⟩).2 = some .InvalidData ∧
    serialize (.vunitVariant 4) ⟨[], []⟩ = (⟨[] ++ u32_le 1 ++ [4], []⟩, none) ∧
    deserialize (.senum (.cons .wunit .nil)) [0, 0, 0, 0, 5] 0 =
      .error (.Custom ("invalid variant index")) :=
  ⟨C6_variant_index.1 256 ⟨[], []⟩ (by decide),
    C6_variant_index.2.1 256 .vunit ⟨[], []⟩ (by decide),
    C6_variant_index.2.2.1 256 .nil ⟨[], []⟩ (by decide),
    C6_variant_index.2.2.2.1 256 .nil ⟨[], []⟩ (by decide),
    C6_variant_index.2.2.2.2.1 4 ⟨[], []⟩ (by decide),
    C6_variant_index.2.2.2.2.2 (.cons .wunit .nil) [0, 0, 0, 0, 5] 0 0 4 5 5 rfl rfl rfl⟩

/-- Claim C7: the decoder never reads past the end of the buffer. Every
primitive read whose end position would exceed the buffer length returns the
malformed-data Custom error instead of reading (and, being the error path,
does not advance the cursor); consequently every successful decode, for every
buffer and every requested shape, ends with its cursor within the buffer. -/
theorem C7_no_overrun :
    (∀ (buffer : List Nat) (pos len : Nat), buffer.length < pos + len →
      read_bytes buffer pos len = .error (.Custom ("Unexpected end of input"))) ∧
    (∀ (S : Shape) (buffer : List Nat) (pos : Nat) (v : Value) (p' : Nat),
      pos ≤ buffer.length → deserialize S buffer pos = .ok (v, p') → p' ≤ buffer.length) := by
  refine ⟨fun buffer pos len h => ?_, fun S buffer pos v p' h1 h2 =>
    deserialize_le S buffer pos v p' h1 h2⟩
  simp only [read_bytes, if_pos h]

/-- Witness for C7: a 1-byte read at position 1 of a 1-byte buffer fails; a
u8 decode of that buffer ends at cursor 1, within bounds. -/
theorem C7_no_overrun_witness :
    ([5] : List Nat).length < 1 + 1 ∧
    read_bytes [5] 1 1 = .error (.Custom ("Unexpected end of input")) ∧
    deserialize .su8 [5] 0 = .ok (.vu8 5, 1) ∧ 1 ≤ ([5] : List Nat).length :=
  ⟨by decide, C7_no_overrun.1 [5] 1 1 (by decide), rfl,
    C7_no_overrun.2 .su8 [5] 0 (.vu8 5) 1 (by decide) rfl⟩

/-- Claim C8, counterexample: `load` does not equal decoding the first `n`
bytes on every input — on data shorter than `n` it panics (modelled by
`none`) instead of returning the decode result of the available bytes. -/
theorem C8_cex :
    load .su8 (.vu8 0) [] = none ∧
    load .su8 (.vu8 0) [] ≠ some (from_bytes .su8 (List.take 1 [])) := by
  refine ⟨rfl, ?_⟩
  intro h
  rw [show load .su8 (.vu8 0) [] = none from rfl] at h
  exact Option.noConfusion h

/-- Claim C8 (amended): whenever the input is at least as long as the
encoding of the default value, `load` encodes the default to learn its byte
length `n`, truncates the input to its first `n` bytes and decodes that
truncated slice with `from_bytes`; on shorter input it panics instead
(claim C10). -/
theorem C8_load (S : Shape) (dflt : Value) (data serialized : List Nat)
    (h1 : to_bytes dflt = .ok serialized) (h2 : serialized.length ≤ data.length) :
    load S dflt data = some (from_bytes S (data.take serialized.length)) := by
  simp only [load, h1]
  rw [if_pos h2]

/-- Witness for C8 on a 2-byte input and a u8 default. -/
theorem C8_load_witness :
    to_bytes (.vu8 0) = .ok [0] ∧ ([0] : List Nat).length ≤ ([9, 9] : List Nat).length ∧
    load .su8 (.vu8 0) [9, 9] =
      some (from_bytes .su8 (List.take ([0] : List Nat).length [9, 9])) :=
  ⟨rfl, by decide, C8_load .su8 (.vu8 0) [9, 9] [0] rfl (by decide)⟩

/-- Claim C9, counterexample: `BytesDeserializer::from_bytes` does not reset
the whole instance state — the buffer is cleared and refilled but the cursor
keeps its old value. After decoding one u8 the cursor is 1; reusing that
instance on the fresh 1-byte input `[7]` fails with the truncated-buffer
error, while a fresh instance decodes `[7]` successfully. -/
theorem C9_cex :
    de_from_bytes ⟨[], 0⟩ .su8 [5] = .ok (.vu8 5, 1) ∧
    de_from_bytes ⟨[5], 1⟩ .su8 [7] = .error (.Custom ("Unexpected end of input")) ∧
    de_from_bytes ⟨[], 0⟩ .su8 [7] = .ok (.vu8 7, 1) :=
  ⟨rfl, rfl, rfl⟩

/-- Claim C9 (amended): the method replaces the buffer but not the cursor, so
only an instance whose cursor is (still) 0 behaves like a fresh instance; the
free `from_bytes` function always uses a fresh instance (`new`), whose cursor
starts at 0, so every independent top-level call through it decodes from
position 0. -/
theorem C9_reset (st : DeState) (S : Shape) (bytes : List Nat) (h : st.position = 0) :
    de_from_bytes st S bytes = de_from_bytes deserializer_new S bytes ∧
    from_bytes S bytes =
      (match de_from_bytes deserializer_new S bytes with
       | .ok (v, _) => .ok v
       | .error e => .error e) := by
  constructor
  · simp [de_from_bytes, h, deserializer_new]
  · simp [from_bytes, de_from_bytes, deserializer_new]

/-- Witness for C9 at cursor 0 on a 1-byte input. -/
theorem C9_reset_witness :
    (⟨[], 0⟩ : DeState).position = 0 ∧
    (de_from_bytes ⟨[], 0⟩ .su8 [7] = de_from_bytes deserializer_new .su8 [7] ∧
      from_bytes .su8 [7] =
        (match de_from_bytes deserializer_new .su8 [7] with
         | .ok (v, _) => .ok v
         | .error e => .error e)) :=
  ⟨rfl, C9_reset ⟨[], 0⟩ .su8 [7] rfl⟩

/-- Claim C10: `load` is not total — whenever the input is strictly shorter
than the encoding of the default value, the slice `&data[..n]` panics
(modelled by `none`) instead of returning an `Err`, despite the `Result`
return type. -/
theorem C10_load_panics (S : Shape) (dflt : Value) (data serialized : List Nat)
    (h1 : to_bytes dflt = .ok serialized) (h2 : data.length < serialized.length) :
    load S dflt data = none := by
  simp only [load, h1]
  rw [if_neg (by omega)]

/-- Witness for C10: a u32 default needs 4 bytes, so `load` on empty input
panics. -/
theorem C10_load_panics_witness :
    to_bytes (.vu32 0) = .ok [0, 0, 0, 0] ∧
    ([] : List Nat).length < ([0, 0, 0, 0] : List Nat).length ∧
    load .su32 (.vu32 0) [] = none :=
  ⟨rfl, by decide, C10_load_panics .su32 (.vu32 0) [] [0, 0, 0, 0] rfl (by decide)⟩

end SerdeBin
